import Mathlib

/-!
Verification development for the zapier-graphql code generator.

This file gives a shallow embedding, in Lean 4, of the schema-to-field-mapping
and GraphQL-string-synthesis core of the repository:

* the type descriptor resolver `getTypeDetails`,
* the child-expansion resolver `getTypeDetailsWithChildren`, in both source
  variants (the `src/lib/index.js` variant without a depth counter, and the
  newer variant in `src/unnamed/part_004` that threads `depth` and caps it),
* the input-field builders `getInputFields` / `getInputFieldChildren` /
  `getInputFieldsFlattened`,
* the field sorters `sortInputFields` / `sortOutputFields`,
* the output-field builder `getOutputFields`,
* the document synthesizer `buildGQL`,
* the sample synthesizer `createSamples`, again in both source variants,
* the mutation action-file content template (its id-mapping fragment).

The GraphQL schema is modelled as a finite list of named type definitions;
field types refer to other types by name, which lets the model express the
cyclic type graphs that real schemas contain.  JavaScript recursion is
modelled with an explicit fuel parameter (`none` = the computation did not
finish within the given fuel); fallible code returns `Except Err`.
-/

namespace ZG

/-! ## Schema model

graphql-js wraps named types in `GraphQLList` / `GraphQLNonNull` nodes; the
innermost layer is a named type (scalar, enum, object or input object).
`TypeRef` is the wrapper chain, ending in a reference by name; the named types
themselves live in the `Schema`, so self-referential types are expressible. -/

inductive TypeRef where
  | named (name : String)
  | list (t : TypeRef)
  | nonNull (t : TypeRef)
deriving DecidableEq, Repr

/-- A declared field (of an object or input-object type) or an operation
argument: a name and a type reference.  graphql-js field/argument records
carry more (description, arguments); the embedded core never reads those. -/
structure FieldDef where
  name : String
  type : TypeRef
deriving DecidableEq, Repr

/-- A named GraphQL type definition.  Union and interface types are not
modelled: no claim under verification mentions them and the repository's
builders treat them as unresolvable. -/
inductive TypeDef where
  | scalar (name : String) (description : Option String)
  | enum (name : String) (values : List String) (description : Option String)
  | object (name : String) (fields : List FieldDef) (description : Option String)
  | inputObject (name : String) (fields : List FieldDef) (description : Option String)
deriving DecidableEq, Repr

def TypeDef.name : TypeDef → String
  | .scalar n _ => n
  | .enum n _ _ => n
  | .object n _ _ => n
  | .inputObject n _ _ => n

def TypeDef.descriptionOf : TypeDef → Option String
  | .scalar _ d => d
  | .enum _ _ d => d
  | .object _ _ d => d
  | .inputObject _ _ d => d

/-- The declared fields of a type: `getFields()` for object and input-object
kinds, and `[]` for the kinds that do not expose fields. -/
def TypeDef.fieldsOf : TypeDef → List FieldDef
  | .object _ fs _ => fs
  | .inputObject _ fs _ => fs
  | _ => []

def TypeDef.isObjectLike : TypeDef → Bool
  | .object _ _ _ => true
  | .inputObject _ _ _ => true
  | _ => false

structure Schema where
  types : List TypeDef
deriving DecidableEq, Repr

/-- Resolve a type name to its definition, as graphql-js does through the
schema's type map. -/
def Schema.lookupType (s : Schema) (n : String) : Option TypeDef :=
  s.types.find? (fun t => t.name = n)

/-! ## Sample values and configuration -/

/-- A JavaScript value as used for sample data.  `num` carries the float
defaults (the code only ever produces `1.0`, so an integer payload suffices;
in JavaScript `1.0` and `1` are the same number, the separate constructors
just record which switch arm produced the value). -/
inductive SVal where
  | str (s : String)
  | int (n : Int)
  | num (n : Int)
  | bool (b : Bool)
  | obj (fields : List (String × SVal))

/-- JavaScript truthiness of an `SVal`. -/
def SVal.truthy : SVal → Bool
  | .str s => s ≠ ""
  | .int n => n ≠ 0
  | .num n => n ≠ 0
  | .bool b => b
  | .obj _ => true

/-- JavaScript object assignment `o[k] = v` on an insertion-ordered
association list: overwrite in place if the key exists, append otherwise. -/
def jsSet (l : List (String × SVal)) (k : String) (v : SVal) : List (String × SVal) :=
  match l with
  | [] => [(k, v)]
  | (k0, v0) :: rest => if k0 = k then (k0, v) :: rest else (k0, v0) :: jsSet rest k v

/-- `sampleFieldValues` from the configuration record.  The `part_004` code
reads exact matches from the `exact` sub-map; the `lib/index.js` variant reads
them from the top level of the object, modelled here by the same `exact`
list.  `startingWith`/`endingWith` keys are lowercased by the `Config`
constructor; the lists keep the configuration's declaration order, which is
the object-key iteration order of the source. -/
structure SampleFieldValues where
  exact : List (String × SVal)
  startingWith : List (String × SVal)
  endingWith : List (String × SVal)

/-- The configuration record (`Config.js`), restricted to the parts the
embedded core reads. -/
structure Config where
  urlEnvVar : String
  scalarMap : List (String × String)
  idMap : List (String × String)
  sortFields : Bool
  sampleFieldValues : SampleFieldValues

/-! ## Errors

All failures in the source are thrown `Error`s; the constructors name the
failure sites, each carrying the offending field or type name exactly as the
corresponding message interpolates it. -/

inductive Err where
  /-- getTypeDetails.determineScalarType: scalar with no scalarMap entry. -/
  | unmappedScalar (typeName : String)
  /-- getTypeDetails: unwrapping ended without a usable named type. -/
  | unresolvedType
  /-- getOutputFields: field-less type whose details carry no scalar type. -/
  | unhandledScalar (typeName : String)
  /-- getOutputFields: a scalar output field without a field name. -/
  | missingFieldName (typeName : String)
  /-- buildGQL: kind other than query/mutation. -/
  | invalidOperationKind (kind : String)
  /-- buildGQL: input field without a `field` reference. -/
  | gqlFieldMissing (key : String)
  /-- createSamples: scalar label with no sample-generation rule. -/
  | unsupportedSample (key : String)
deriving DecidableEq, Repr

/-! ## The type descriptor resolver: `getTypeDetails`

The JS walks the wrapper chain outermost-in, reassigning `typeName`/`type` at
every layer (so only the innermost named layer survives), or-accumulating
`isList`/`isRequired` over the wrappers, and taking the first non-null
description / scalar type / enum values — which, since wrapper layers
contribute none of those, are exactly the innermost named type's.  The model
below computes the same result directly from the innermost name and the
wrapper flags. -/

/-- Name of the innermost named layer of a wrapper chain. -/
def TypeRef.innerName : TypeRef → String
  | .named n => n
  | .list t => t.innerName
  | .nonNull t => t.innerName

/-- `isList`: some wrapper layer was a `GraphQLList`. -/
def TypeRef.hasListWrapper : TypeRef → Bool
  | .named _ => false
  | .list _ => true
  | .nonNull t => t.hasListWrapper

/-- `isRequired`: some wrapper layer was a `GraphQLNonNull`. -/
def TypeRef.hasNonNullWrapper : TypeRef → Bool
  | .named _ => false
  | .list t => t.hasNonNullWrapper
  | .nonNull _ => true

/-- `TypeDetails` minus `children` (which `getTypeDetails` always returns
empty; the child-expansion resolver fills it, see `TDT` below). -/
structure TypeDetails0 where
  fieldName : Option String
  typeName : String
  typeDef : TypeDef
  scalarType : Option String
  isList : Bool
  isRequired : Bool
  description : Option String
  enumValues : List String
deriving DecidableEq, Repr

/-- `determineScalarType` applied to a named type definition: scalars go
through the configured scalar map (a miss, or a falsy mapping, throws naming
the scalar); enums are always `string`; anything else contributes no scalar
type. -/
def determineScalarType (cfg : Config) : TypeDef → Except Err (Option String)
  | .scalar n _ =>
    match List.lookup n cfg.scalarMap with
    | none => .error (.unmappedScalar n)
    | some v => if v = "" then .error (.unmappedScalar n) else .ok (some v)
  | .enum _ _ _ => .ok (some "string")
  | _ => .ok none

/-- Resolve an already-unwrapped named type definition together with wrapper
flags: the common core of `getTypeDetails`. -/
def resolveDef (cfg : Config) (td : TypeDef) (fieldName : Option String)
    (isList isRequired : Bool) : Except Err TypeDetails0 := do
  let scalarType ← determineScalarType cfg td
  .ok { fieldName := fieldName
        typeName := td.name
        typeDef := td
        scalarType := scalarType
        isList := isList
        isRequired := isRequired
        description := td.descriptionOf
        enumValues := match td with | .enum _ vs _ => vs | _ => [] }

/-- `getTypeDetails(outerType, fieldName)`.  A name missing from the schema
plays the role of the source's "unable to determine type details" failure
(unreachable for the schemas graphql-js constructs, where every reference is
resolvable). -/
def getTypeDetails (s : Schema) (cfg : Config) (r : TypeRef)
    (fieldName : Option String) : Except Err TypeDetails0 :=
  match s.lookupType r.innerName with
  | none => .error .unresolvedType
  | some td => resolveDef cfg td fieldName r.hasListWrapper r.hasNonNullWrapper

/-- `getTypeDetails` applied directly to a named type object (as
`getOutputFields` does with `typeDetails.type`): no wrapper layers. -/
def getTypeDetailsDef (cfg : Config) (td : TypeDef) : Except Err TypeDetails0 :=
  resolveDef cfg td none false false

/-! ## The child-expansion resolvers: `getTypeDetailsWithChildren`

The resolved tree.  In the source, `children` is a JavaScript `Array` used as
a string-keyed map (`children[fieldName] = ...`): `Object.entries` sees the
entries, but the array's `length` property stays `0` (GraphQL field names are
never array indices).  Call sites that read `children.length` on a
`TypeDetails` therefore always see `0`; call sites that use
`Object.entries(children)` see the map.  The model stores the entry list. -/

inductive TDT where
  | node (details : TypeDetails0) (children : List (String × TDT))

def TDT.details : TDT → TypeDetails0
  | .node d _ => d

def TDT.children : TDT → List (String × TDT)
  | .node _ c => c

/-- Work items for the fuelled resolvers: resolving a single type reference,
or expanding a list of declared fields into child entries.  `depth` is the
explicit depth counter of the `part_004` variant (ignored by the
`lib/index.js` variant). -/
inductive RTask where
  | res (r : TypeRef) (fieldName : Option String) (depth : Nat)
  | kids (fs : List FieldDef) (fieldName : Option String) (depth : Nat)

/-- Results for the two task shapes. -/
inductive RRes where
  | res (t : TDT)
  | kids (l : List (String × TDT))

/-- `part_004`'s per-field list unwrap: `if (f[1].type instanceof GraphQLList)
recurse on f[1].type.ofType`. -/
def unwrapOneList : TypeRef → TypeRef
  | .list t => t
  | r => r

/-- The `part_004` variant of `getTypeDetailsWithChildren`, with its explicit
`depth` counter ("Prevents infinite recursion and Zapier only supports 1
level of depth anyway"): resolve the type; if `depth > 1` stop; otherwise,
for object-like types, expand every declared field at `depth + 1`, unwrapping
one list layer of a field's type transparently.  `none` = out of fuel. -/
def p4F (s : Schema) (cfg : Config) : Nat → RTask → Option (Except Err RRes)
  | 0, _ => none
  | _ + 1, .kids [] _ _ => some (.ok (.kids []))
  | n + 1, .kids (f :: rest) fieldName depth =>
    match p4F s cfg n (.res (unwrapOneList f.type) fieldName depth) with
    | none => none
    | some (.error e) => some (.error e)
    | some (.ok (.kids _)) => some (.error .unresolvedType)
    | some (.ok (.res child)) =>
      match p4F s cfg n (.kids rest fieldName depth) with
      | none => none
      | some (.error e) => some (.error e)
      | some (.ok (.res _)) => some (.error .unresolvedType)
      | some (.ok (.kids l)) => some (.ok (.kids ((f.name, child) :: l)))
  | n + 1, .res r fieldName depth =>
    match getTypeDetails s cfg r fieldName with
    | .error e => some (.error e)
    | .ok td =>
      if depth > 1 then some (.ok (.res (.node td [])))
      else if td.typeDef.isObjectLike then
        match p4F s cfg n (.kids td.typeDef.fieldsOf fieldName (depth + 1)) with
        | none => none
        | some (.error e) => some (.error e)
        | some (.ok (.res _)) => some (.error .unresolvedType)
        | some (.ok (.kids ch)) => some (.ok (.res (.node td ch)))
      else some (.ok (.res (.node td [])))

/-- The `src/lib/index.js` variant of `getTypeDetailsWithChildren`: identical
except that there is no depth counter and no per-field list unwrap — an
object-like type's fields are always expanded, so the recursion is unbounded
on cyclic type graphs. -/
def libF (s : Schema) (cfg : Config) : Nat → RTask → Option (Except Err RRes)
  | 0, _ => none
  | _ + 1, .kids [] _ _ => some (.ok (.kids []))
  | n + 1, .kids (f :: rest) fieldName depth =>
    match libF s cfg n (.res f.type fieldName depth) with
    | none => none
    | some (.error e) => some (.error e)
    | some (.ok (.kids _)) => some (.error .unresolvedType)
    | some (.ok (.res child)) =>
      match libF s cfg n (.kids rest fieldName depth) with
      | none => none
      | some (.error e) => some (.error e)
      | some (.ok (.res _)) => some (.error .unresolvedType)
      | some (.ok (.kids l)) => some (.ok (.kids ((f.name, child) :: l)))
  | n + 1, .res r fieldName depth =>
    match getTypeDetails s cfg r fieldName with
    | .error e => some (.error e)
    | .ok td =>
      if td.typeDef.isObjectLike then
        match libF s cfg n (.kids td.typeDef.fieldsOf fieldName depth) with
        | none => none
        | some (.error e) => some (.error e)
        | some (.ok (.res _)) => some (.error .unresolvedType)
        | some (.ok (.kids ch)) => some (.ok (.res (.node td ch)))
      else some (.ok (.res (.node td [])))

/-- The largest declared-field-list length in the schema, used to bound the
fuel the capped resolver needs. -/
def Schema.maxFields (s : Schema) : Nat :=
  (s.types.map (fun t => t.fieldsOf.length)).foldr max 0

/-- Fuel that always suffices for the depth-capped resolver (proved below). -/
def p4Bound (s : Schema) : Nat :=
  2 * s.maxFields + 5

/-! ## The field model: `InputField` / `OutputField` -/

/-- `InputField.js`.  Properties spread conditionally in the source
(`field`, `choices`, `children`) are `Option`s; an absent property is
`none`.  The builders only ever attach non-empty `choices`/`children` lists
(`...(children.length && \x7bchildren\x7d)`). -/
inductive InputField where
  | mk (key : String) (field : Option String) (label : String)
       (type : Option String) (required : Bool) (helpText : Option String)
       (choices : Option (List String)) (children : Option (List InputField))

def InputField.key : InputField → String
  | .mk k _ _ _ _ _ _ _ => k

def InputField.field : InputField → Option String
  | .mk _ f _ _ _ _ _ _ => f

def InputField.label : InputField → String
  | .mk _ _ l _ _ _ _ _ => l

def InputField.type : InputField → Option String
  | .mk _ _ _ t _ _ _ _ => t

def InputField.required : InputField → Bool
  | .mk _ _ _ _ r _ _ _ => r

def InputField.helpText : InputField → Option String
  | .mk _ _ _ _ _ h _ _ => h

def InputField.choices : InputField → Option (List String)
  | .mk _ _ _ _ _ _ c _ => c

def InputField.children : InputField → Option (List InputField)
  | .mk _ _ _ _ _ _ _ ch => ch

/-- `OutputField.js`: key, label, platform type, optional choices. -/
structure OutputField where
  key : String
  label : String
  type : Option String
  choices : Option (List String)
deriving DecidableEq, Repr

/-- `inflection.transform(name, ['underscore', 'titleize'])` — an external
library (the `inflection` npm package, not part of this repository).  No
claim under verification constrains label text, so the label derivation is
modelled as the identity renaming. -/
def inflectionLabel (s : String) : String := s

/-- JavaScript template-literal coercion of a possibly-null string
(`null` interpolates as "null"). -/
def jsFieldName : Option String → String
  | some s => s
  | none => "null"

/-! ## JavaScript string operations

The embedded code runs on JavaScript strings; the operations it uses are
modelled directly by structural recursion over the character list (so they
are executable in the kernel).  JavaScript compares strings by UTF-16 code
units; for the Basic Multilingual Plane this is code-point order, which is
what `charsLt` implements. -/

/-- JavaScript `<` on strings: lexicographic by code point. -/
def charsLt : List Char → List Char → Bool
  | _, [] => false
  | [], _ :: _ => true
  | a :: as, b :: bs =>
    if a.toNat < b.toNat then true
    else if b.toNat < a.toNat then false
    else charsLt as bs

def strLt (a b : String) : Bool :=
  charsLt a.data b.data

/-- JavaScript `a <= b` on strings (`!(b < a)` for a total order). -/
def strLe (a b : String) : Bool :=
  !strLt b a

/-- JavaScript `String.prototype.toLowerCase`, on the ASCII range (the only
range the embedded comparisons need). -/
def charLower (c : Char) : Char :=
  if 65 ≤ c.toNat ∧ c.toNat ≤ 90 then Char.ofNat (c.toNat + 32) else c

def jsToLower (s : String) : String :=
  ⟨s.data.map charLower⟩

def charsIsPre : List Char → List Char → Bool
  | [], _ => true
  | _ :: _, [] => false
  | a :: as, b :: bs => a == b && charsIsPre as bs

/-- JavaScript `String.prototype.startsWith`. -/
def jsStartsWith (s pat : String) : Bool :=
  charsIsPre pat.data s.data

/-- JavaScript `String.prototype.endsWith`. -/
def jsEndsWith (s pat : String) : Bool :=
  charsIsPre pat.data.reverse s.data.reverse

/-- JavaScript `split('__')`: non-overlapping left-to-right scan. -/
def splitUU : List Char → List Char → List String
  | [], acc => [⟨acc.reverse⟩]
  | '_' :: '_' :: rest, acc => (⟨acc.reverse⟩ : String) :: splitUU rest []
  | c :: rest, acc => splitUU rest (c :: acc)

/-! ## The field sorters -/

/-- Terminal key segment: `key.split('__').pop()`.  `split` always yields at
least one element, so the popped segment is only falsy when it is empty. -/
def termOf (key : String) : String :=
  (splitUU key.data []).getLastD ""

/-- The `sortInputFields` comparator. -/
def cmpInput (a b : InputField) : Int :=
  let ak := termOf a.key
  let bk := termOf b.key
  if ak = "" ∨ bk = "" then 0
  else if ak = "id" then -1
  else if bk = "id" then 1
  else if strLt ak bk then -1 else 1

/-- The `sortOutputFields` comparator: same shape, on whole keys, without the
falsy guard. -/
def cmpOutput (a b : OutputField) : Int :=
  if a.key = "id" then -1
  else if b.key = "id" then 1
  else if strLt a.key b.key then -1 else 1

/-- Stable insertion by a JavaScript comparator: place `x` before the first
element it compares strictly less than.  For a consistent comparator this is
the (unique, stable) order `Array.prototype.sort` must produce. -/
def insertCmp (cmp : α → α → Int) (x : α) : List α → List α
  | [] => [x]
  | y :: ys => if cmp x y < 0 then x :: y :: ys else y :: insertCmp cmp x ys

/-- Comparison sort built from `insertCmp`. -/
def sortCmp (cmp : α → α → Int) (l : List α) : List α :=
  l.foldr (insertCmp cmp) []

/-- `sortInputFields`: no-op unless `sortFields` is configured. -/
def sortInputFields (cfg : Config) (fields : List InputField) : List InputField :=
  if cfg.sortFields then sortCmp cmpInput fields else fields

/-- `sortOutputFields`: no-op unless `sortFields` is configured. -/
def sortOutputFields (cfg : Config) (fields : List OutputField) : List OutputField :=
  if cfg.sortFields then sortCmp cmpOutput fields else fields

/-! ## The input-field builder

`getInputFields` iterates fields (either operation arguments or child
`TypeDetails` records with a `name` patched on), resolving each with the
child-expansion resolver and emitting scalar or parent `InputField`s;
`getInputFieldChildren` expands one resolved type's child entries by calling
`getInputFields` back on each child with the parent's field name pushed onto
`fieldDepth`.  What the builder reads from an argument or child record is its
name, a type reference to re-resolve, and its recorded `isRequired`
(`undefined`, hence `false`, for plain GraphQL argument records). -/

structure FieldLike where
  name : String
  typeRef : TypeRef
  isRequired : Bool
deriving DecidableEq, Repr

/-- Work items for the fuelled builder: the `buildInputFields` loop over a
field list, and the `getInputFieldChildren` loop over resolved child
entries.  `parentName` is the `parentFieldName` the source pushes onto
`fieldDepth`: because a `TypeDetails`' `children.length` is always `0` (see
`TDT`), it is always the parent's `fieldName`. -/
inductive BTask where
  | fields (fs : List FieldLike) (fd : List String)
  | child (entries : List (String × TypeDetails0)) (parentName : String) (fd : List String)

/-- The scalar-field record `getInputFields` pushes when the resolved type
has no child entries. -/
def scalarInputField (forGQL : Bool) (fd : List String) (f : FieldLike)
    (td : TypeDetails0) : InputField :=
  .mk
    ((if fd.length > 1 then (fd.getLastD "") ++ "__" else "")
      ++ jsFieldName td.fieldName)
    (if forGQL then some (jsFieldName td.fieldName) else none)
    (inflectionLabel (jsFieldName td.fieldName))
    td.scalarType
    (f.isRequired || td.isRequired)
    td.description
    (if td.enumValues.isEmpty then none else some td.enumValues)
    none

/-- The parent-field record `getInputFields` pushes when the resolved type
has child entries: no `type`, no `helpText`, `children` only when the built
child list is non-empty. -/
def parentInputField (forGQL : Bool) (fd : List String) (f : FieldLike)
    (td : TypeDetails0) (kids : List InputField) : InputField :=
  .mk
    ((if fd.length > 1 then String.intercalate "." fd ++ "." else "")
      ++ jsFieldName td.fieldName)
    (if forGQL then some (jsFieldName td.fieldName) else none)
    (inflectionLabel (jsFieldName td.fieldName))
    none
    (f.isRequired || td.isRequired)
    none
    (if td.enumValues.isEmpty then none else some td.enumValues)
    (if kids.isEmpty then none else some kids)

def buildF (s : Schema) (cfg : Config) (forGQL : Bool) :
    Nat → BTask → Option (Except Err (List InputField))
  | 0, _ => none
  | _ + 1, .fields [] _ => some (.ok [])
  | n + 1, .fields (f :: rest) fd =>
    match p4F s cfg (n + 1) (.res f.typeRef (some f.name) 0) with
    | none => none
    | some (.error e) => some (.error e)
    | some (.ok (.kids _)) => some (.error .unresolvedType)
    | some (.ok (.res (.node td ch))) =>
      if ch.isEmpty then
        match buildF s cfg forGQL n (.fields rest fd) with
        | none => none
        | some (.error e) => some (.error e)
        | some (.ok l) => some (.ok (scalarInputField forGQL fd f td :: l))
      else
        let kidsRes : Option (Except Err (List InputField)) :=
          if fd.length > 1 then some (.ok [])
          else buildF s cfg forGQL n
            (.child (ch.map (fun p => (p.1, p.2.details))) (jsFieldName td.fieldName) fd)
        match kidsRes with
        | none => none
        | some (.error e) => some (.error e)
        | some (.ok rawKids) =>
          if fd.length > 1 then
            buildF s cfg forGQL n (.fields rest fd)
          else
            match buildF s cfg forGQL n (.fields rest fd) with
            | none => none
            | some (.error e) => some (.error e)
            | some (.ok l) =>
              some (.ok (parentInputField forGQL fd f td (sortInputFields cfg rawKids) :: l))
  | _ + 1, .child [] _ _ => some (.ok [])
  | n + 1, .child ((k, ctd) :: rest) parentName fd =>
    if fd.length > 1 then some (.ok [])
    else
      match buildF s cfg forGQL n
        (.fields [⟨k, .named ctd.typeName, ctd.isRequired⟩] (fd ++ [parentName])) with
      | none => none
      | some (.error e) => some (.error e)
      | some (.ok one) =>
        match buildF s cfg forGQL n (.child rest parentName fd) with
        | none => none
        | some (.error e) => some (.error e)
        | some (.ok more) => some (.ok (sortInputFields cfg one ++ more))

/-- `getInputFields(fields, forGQL, fieldDepth)`: empty input short-circuits
to `[]`; otherwise build and apply the final sort. -/
def getInputFieldsF (fuel : Nat) (s : Schema) (cfg : Config) (forGQL : Bool)
    (args : List FieldLike) (fd : List String) : Option (Except Err (List InputField)) :=
  if args.isEmpty then some (.ok [])
  else (buildF s cfg forGQL fuel (.fields args fd)).map (Except.map (sortInputFields cfg))

/-- The flattening post-step of `getInputFieldsFlattened`: a single field
with a non-empty children list is replaced by its children. -/
def flattenStep : List InputField → List InputField
  | [f] =>
    match f.children with
    | some cs => if cs.length ≠ 0 then cs else [f]
    | none => [f]
  | l => l

/-- `getInputFieldsFlattened(fields)` (always the platform-facing, non-GQL
build). -/
def getInputFieldsFlattenedF (fuel : Nat) (s : Schema) (cfg : Config)
    (args : List FieldLike) : Option (Except Err (List InputField)) :=
  (getInputFieldsF fuel s cfg false args []).map (Except.map flattenStep)

/-! ## The output-field builder: `getOutputFields` -/

/-- Truthiness of `getConfig().idMap[name]`. -/
def idMapTruthy (cfg : Config) (name : String) : Bool :=
  match List.lookup name cfg.idMap with
  | some v => v ≠ ""
  | none => false

/-- The loop over an object type's declared fields: skip fields whose
resolved details carry no scalar type (relational fields), fail on a missing
field name, emit an `OutputField` otherwise.  Resolution errors (for example
an unmapped scalar) propagate. -/
def buildOutputList (s : Schema) (cfg : Config) : List FieldDef → Except Err (List OutputField)
  | [] => .ok []
  | f :: rest => do
    let td ← getTypeDetails s cfg f.type (some f.name)
    match td.scalarType with
    | none => buildOutputList s cfg rest
    | some st =>
      match td.fieldName with
      | none => .error (.missingFieldName td.typeName)
      | some fn =>
        let more ← buildOutputList s cfg rest
        .ok ({ key := fn
               label := inflectionLabel f.name
               type := some st
               choices := if td.enumValues.isEmpty then none else some td.enumValues } :: more)

/-- `getOutputFields(type, forGQL)`.  A type without `getFields` (scalar or
enum) yields the single implicit-return field; an object-like type yields its
scalar fields, plus a synthesized string `id` field when the type is
identifier-mapped, the build is platform-facing and no `id` key exists, all
passed through the output sorter. -/
def getOutputFields (s : Schema) (cfg : Config) (t : TypeDef) (forGQL : Bool) :
    Except Err (List OutputField) :=
  if t.isObjectLike then
    match buildOutputList s cfg t.fieldsOf with
    | .error e => .error e
    | .ok outs =>
      let outs2 :=
        if !forGQL && idMapTruthy cfg t.name && !(outs.any (fun o => o.key == "id"))
        then outs ++ [{ key := "id", label := "Id", type := some "string", choices := none }]
        else outs
      .ok (sortOutputFields cfg outs2)
  else
    match getTypeDetailsDef cfg t with
    | .error e => .error e
    | .ok td =>
      match td.scalarType with
      | none => .error (.unhandledScalar t.name)
      | some st =>
        .ok [{ key := if td.typeName = "ID" then "id" else "value"
               label := inflectionLabel t.name
               type := some st
               choices := if td.enumValues.isEmpty then none else some td.enumValues }]

/-! ## The document synthesizer: `buildGQL` (the `part_004` text shape) -/

/-- `'  '.repeat(n)`. -/
def ind (n : Nat) : String :=
  String.join (List.replicate n "  ")

/-- Template-literal coercion of a possibly-undefined property
(`undefined` interpolates as "undefined"). -/
def jsUndef : Option String → String
  | some s => s
  | none => "undefined"

/-- `buildGQLField(field, fieldDepth)`: leaf line of the argument block.  The
runtime lookup path namespaces the key with the immediate parent only —
"since the depth for Zapier is limited to 1, we can just get the last parent
field in the depth". -/
def buildGQLField (f : InputField) (fd : List String) : Except Err String :=
  match f.field with
  | none => .error (.gqlFieldMissing f.key)
  | some fl =>
    if fl = "" then .error (.gqlFieldMissing f.key)
    else
      let parentNamespace := if fd.length > 1 then (fd.getLastD "") ++ "." else ""
      let value := "$\x7bquote(inputData." ++ parentNamespace ++ f.key
        ++ (if f.required then "" else " ?? null") ++ ")\x7d"
      .ok (ind (if fd.length ≠ 0 then fd.length + 2 else 2) ++ fl ++ ": " ++ value)

/-- `buildGQLFields(fields, fieldDepth)`: one rendered chunk per field; a
field with children renders as a nested braces block around its recursively
rendered children, with the field's key pushed onto `fieldDepth` for the
duration. -/
def bgqlFieldsF : Nat → List InputField → List String → Option (Except Err (List String))
  | 0, _, _ => none
  | _ + 1, [], _ => some (.ok [])
  | n + 1, f :: rest, fd =>
    let head? : Option (Except Err String) :=
      match f.children with
      | some (c :: cs) =>
        let fd2 := fd ++ [f.key]
        match bgqlFieldsF n (c :: cs) fd2 with
        | none => none
        | some (.error e) => some (.error e)
        | some (.ok inner) =>
          some (.ok (ind (fd2.length + 1) ++ jsUndef f.field ++ ": \x7b\n"
            ++ String.intercalate "\n" inner ++ "\n" ++ ind (fd2.length + 1) ++ "\x7d"))
      | _ => some (buildGQLField f fd)
    match head? with
    | none => none
    | some (.error e) => some (.error e)
    | some (.ok line) =>
      match bgqlFieldsF n rest fd with
      | none => none
      | some (.error e) => some (.error e)
      | some (.ok lines) => some (.ok (line :: lines))

/-- `buildGQL(queryOrMutation, operation, inputFields, outputFields)`. -/
def buildGQL (fuel : Nat) (queryOrMutation operation : String)
    (inputFields : List InputField) (outputFields : List OutputField) :
    Option (Except Err String) :=
  if queryOrMutation = "query" ∨ queryOrMutation = "mutation" then
    match (if inputFields.isEmpty then some (.ok []) else bgqlFieldsF fuel inputFields []) with
    | none => none
    | some (.error e) => some (.error e)
    | some (.ok parts) =>
      let base := queryOrMutation ++ " \x7b\n  " ++ operation
      let mid :=
        if inputFields.isEmpty then " \x7b\n"
        else "(\n" ++ String.intercalate "\n" parts ++ "\n  ) \x7b\n"
      some (.ok (base ++ mid
        ++ "    " ++ String.intercalate "\n    " (outputFields.map (fun o => o.key))
        ++ "\n  \x7d\n\x7d"))
  else some (.error (.invalidOperationKind queryOrMutation))

/-! ## The sample synthesizer: `createSamples`

Two variants again.  The `part_004` variant factors configured-value lookup
into `getConfiguredValue` (exact match first, then a last-match-wins scan of
`startingWith` followed by `endingWith` over the same accumulator, so a
matching suffix entry overrides any matching pre-match entry), deduplicates
keys already present with a truthy sample, and uses the `CURRENT_TIMESTAMP`
sentinel for datetime defaults.  The `lib/index.js` variant writes the two
scans directly into the samples object, only keeps the result if it is
truthy, and inlines `new Date().toISOString()` — the ambient clock, passed
here as the explicit `now` argument — for datetime defaults. -/

/-- `part_004` `getConfiguredValue(field)`. -/
def getConfiguredValue (cfg : Config) (f : InputField) : Option SVal :=
  if f.children.isSome then none
  else
    let sfv := cfg.sampleFieldValues
    let exactHit :=
      match List.lookup f.key sfv.exact with
      | some v => if v.truthy then some v else none
      | none => none
    match exactHit with
    | some v => some v
    | none =>
      let rv := sfv.startingWith.foldl
        (fun acc kv => if jsStartsWith (jsToLower f.key) kv.1 then some kv.2 else acc) none
      sfv.endingWith.foldl
        (fun acc kv => if jsEndsWith (jsToLower f.key) kv.1 then some kv.2 else acc) rv

/-- The type-based default table of `part_004`'s `getSampleValue` (the
non-children arm). -/
def defaultSampleP4 (f : InputField) : Except Err SVal :=
  match f.type with
  | none => .error (.unsupportedSample f.key)
  | some t =>
    if t = "string" then .ok (.str (if f.key = "id" then "1" else "Something"))
    else if t = "number" then .ok (.num 1)
    else if t = "integer" then .ok (.int 1)
    else if t = "boolean" then .ok (.bool true)
    else if t = "datetime" then .ok (.str "CURRENT_TIMESTAMP")
    else .error (.unsupportedSample f.key)

/-- The same table in `lib/index.js`, whose datetime arm is
`new Date().toISOString()`: the current clock reading. -/
def defaultSampleLib (now : String) (f : InputField) : Except Err SVal :=
  match f.type with
  | none => .error (.unsupportedSample f.key)
  | some t =>
    if t = "string" then .ok (.str (if f.key = "id" then "1" else "Something"))
    else if t = "number" then .ok (.num 1)
    else if t = "integer" then .ok (.int 1)
    else if t = "boolean" then .ok (.bool true)
    else if t = "datetime" then .ok (.str now)
    else .error (.unsupportedSample f.key)

/-- Truthiness of `samples[key]`. -/
def sampleTruthyAt (acc : List (String × SVal)) (key : String) : Bool :=
  match List.lookup key acc with
  | some v => v.truthy
  | none => false

/-- `part_004` `createSamples(fields)`, threading the samples object as an
accumulator.  `now` is the ambient clock, unused by this variant. -/
def createSamplesF (now : String) (cfg : Config) :
    Nat → List InputField → List (String × SVal) → Option (Except Err (List (String × SVal)))
  | 0, _, _ => none
  | _ + 1, [], acc => some (.ok acc)
  | n + 1, f :: rest, acc =>
    if sampleTruthyAt acc f.key then createSamplesF now cfg n rest acc
    else
      match f.choices with
      | some (c :: _) => createSamplesF now cfg n rest (jsSet acc f.key (.str c))
      | _ =>
        match getConfiguredValue cfg f with
        | some v => createSamplesF now cfg n rest (jsSet acc f.key v)
        | none =>
          match f.children with
          | some cs =>
            match createSamplesF now cfg n cs [] with
            | none => none
            | some (.error e) => some (.error e)
            | some (.ok sub) => createSamplesF now cfg n rest (jsSet acc f.key (.obj sub))
          | none =>
            match defaultSampleP4 f with
            | .error e => some (.error e)
            | .ok v => createSamplesF now cfg n rest (jsSet acc f.key v)

/-- `lib/index.js` `createSamples(fields)`. -/
def createSamplesLibF (now : String) (cfg : Config) :
    Nat → List InputField → List (String × SVal) → Option (Except Err (List (String × SVal)))
  | 0, _, _ => none
  | _ + 1, [], acc => some (.ok acc)
  | n + 1, f :: rest, acc =>
    match f.choices with
    | some (c :: _) => createSamplesLibF now cfg n rest (jsSet acc f.key (.str c))
    | _ =>
      let exactHit :=
        match List.lookup f.key cfg.sampleFieldValues.exact with
        | some v => if v.truthy then some v else none
        | none => none
      match exactHit with
      | some v => createSamplesLibF now cfg n rest (jsSet acc f.key v)
      | none =>
        let acc1 := cfg.sampleFieldValues.startingWith.foldl
          (fun a kv => if jsStartsWith (jsToLower f.key) kv.1 then jsSet a f.key kv.2 else a) acc
        let acc2 := cfg.sampleFieldValues.endingWith.foldl
          (fun a kv => if jsEndsWith (jsToLower f.key) kv.1 then jsSet a f.key kv.2 else a) acc1
        if sampleTruthyAt acc2 f.key then createSamplesLibF now cfg n rest acc2
        else
          match f.children with
          | some cs =>
            match createSamplesLibF now cfg n cs [] with
            | none => none
            | some (.error e) => some (.error e)
            | some (.ok sub) => createSamplesLibF now cfg n rest (jsSet acc2 f.key (.obj sub))
          | none =>
            match defaultSampleLib now f with
            | .error e => some (.error e)
            | .ok v => createSamplesLibF now cfg n rest (jsSet acc2 f.key v)

/-! ## The mutation action-file template (`getMutationActionContent`)

The generated file is one interpolated template; the model splits it at the
two fragments the claims speak about — the identifier-mapping response
reshaping and the single-object return — and keeps the surrounding text
verbatim.  The serialized field/sample texts are produced by external
libraries (`JSON5.stringify`, the local `stringifyObject`) and enter as
parameters. -/

/-- The response-reshaping expression interpolated when the return type is
identifier-mapped: copy the mapped source field into a new `id` property on
every record of the response. -/
def mutationReshapeExpr (mutation src : String) : String :=
  "response.data.data." ++ mutation ++ " = response.data.data." ++ mutation
    ++ ".map(r => (\x7b...r, id: r." ++ src ++ "\x7d));"

/-- The `idMapping` fragment: present (with its comment line) exactly when
`getConfig().idMap[typeName]` is truthy. -/
def mutationIdMapping (cfg : Config) (mutation typeName : String) : String :=
  if idMapTruthy cfg typeName then
    "\n  // Will handle the id mapping to a new \"id\" field for Zapier compatibility\n  "
      ++ mutationReshapeExpr mutation ((List.lookup typeName cfg.idMap).getD "")
      ++ "\n    "
  else ""

/-- Template text from the top of the file through `${idMapping}`. -/
def mutationContentHead (cfg : Config) (mutation gql : String) (hasInput : Bool) : String :=
  "/**\n * " ++ mutation ++ " mutation\n * This file was auto-generated by zapier-graphql.\n */\n\n"
    ++ "'use strict';\n\n"
    ++ "const \x7b getConfig \x7d = require('zapier-graphql');\n"
    ++ "const \x7b quote \x7d = require('zapier-graphql/lib/utils');\n\n"
    ++ "// Executes the " ++ mutation ++ " mutation at runtime\n"
    ++ "const perform = async (z, bundle) => \x7b\n  "
    ++ (if hasInput then "const inputData = bundle.inputData;" else "")
    ++ "\n  const response = await z.request(\x7b\n"
    ++ "    url: process.env." ++ cfg.urlEnvVar ++ ",\n"
    ++ "    method: 'POST',\n"
    ++ "    headers: getConfig().request.headers,\n"
    ++ "    json: \x7b\n"
    ++ "      query: `" ++ gql ++ "`,\n"
    ++ "    \x7d\n"
    ++ "  \x7d);\n  "

/-- Template text from after `${idMapping}` through the end of `perform`,
containing the single-object return. -/
def mutationReturnPart (mutation : String) : String :=
  "\n  // This should return a single object\n  return response.data.data."
    ++ mutation ++ ";\n\x7d;\n"

/-- The rest of the template: the `module.exports` record. -/
def mutationContentTail (mutation noun label description inTxt sampleTxt outTxt : String) :
    String :=
  "\n\n// For a full list of available properties, see:\n"
    ++ "// https://github.com/zapier/zapier-platform/blob/main/packages/schema/docs/build/schema.md#searchschema\n"
    ++ "module.exports = \x7b\n"
    ++ "  key: '" ++ mutation ++ "',\n"
    ++ "  noun: '" ++ noun ++ "',\n\n"
    ++ "  display: \x7b\n"
    ++ "    label: '" ++ label ++ "',\n"
    ++ "    description: `" ++ description ++ "`,\n"
    ++ "  \x7d,\n\n"
    ++ "  operation: \x7b\n"
    ++ "    perform,\n\n"
    ++ "    inputFields: " ++ inTxt ++ ",\n\n"
    ++ "    sample: " ++ sampleTxt ++ ",\n\n"
    ++ "    outputFields: " ++ outTxt ++ ",\n  \x7d\n\x7d;\n"

/-- The assembled mutation action-file contents. -/
def mutationActionContent (cfg : Config)
    (mutation noun label description gql inTxt sampleTxt outTxt : String)
    (hasInput : Bool) : String :=
  mutationContentHead cfg mutation gql hasInput
    ++ mutationIdMapping cfg mutation noun
    ++ mutationReturnPart mutation
    ++ mutationContentTail mutation noun label description inTxt sampleTxt outTxt

/-! ## The resolution pipeline (the four artifacts of one operation) -/

/-- Error/fuel-propagating bind for the fuelled computations. -/
def obind (x : Option (Except Err α)) (f : α → Option (Except Err β)) :
    Option (Except Err β) :=
  match x with
  | none => none
  | some (.error e) => some (.error e)
  | some (.ok a) => f a

/-- View of an `OutputField` as the record `createSamples` reads. -/
def outputToInput (o : OutputField) : InputField :=
  .mk o.key none o.label o.type false none o.choices none

/-- The four artifacts the core hands to the excluded file-writing layer:
the platform input-field sequence, the document text, the output-field
sequence, the action-file sample data (from output fields) and the test-file
sample data (from the flattened input fields). -/
structure PipelineOut where
  inputFields : List InputField
  gqlDoc : String
  outputFields : List OutputField
  samples : List (String × SVal)
  testSamples : List (String × SVal)

/-- The full resolution pipeline of one operation, as `createQueryFile` /
`getMutationActionContent` / `createTestFile` compose it in the `part_004`
variant.  `now` is the ambient clock reading threaded to the sample
synthesizer. -/
def pipelineP4 (fuel : Nat) (now : String) (s : Schema) (cfg : Config)
    (args : List FieldLike) (retType : TypeDef) (qm op : String) :
    Option (Except Err PipelineOut) :=
  obind (getInputFieldsFlattenedF fuel s cfg args) fun inputFields =>
  obind (getInputFieldsF fuel s cfg true args []) fun gqlIns =>
  obind (some (getOutputFields s cfg retType false)) fun outs =>
  obind (some (getOutputFields s cfg retType true)) fun outsG =>
  obind (buildGQL fuel qm op gqlIns outsG) fun doc =>
  obind (createSamplesF now cfg fuel (outs.map outputToInput) []) fun samples =>
  obind (createSamplesF now cfg fuel inputFields []) fun testSamples =>
  some (.ok ⟨inputFields, doc, outs, samples, testSamples⟩)

/-! ## Spec-side predicates

Definitions in this section follow the wording of the specification's claims
(not the source); the theorems below compare them with the behaviour of the
embedded code. -/

/-- The children list of a field, empty when the property is absent. -/
def childListOf (f : InputField) : List InputField :=
  (f.children).getD []

/-- Some element of some `children` list itself carries a non-empty
`children` list (what the depth-bound claim says never happens). -/
def hasDeepChild (l : List InputField) : Bool :=
  l.any fun f => (childListOf f).any fun c => !(childListOf c).isEmpty

/-- No field of the sequence carries children. -/
def NoKids (l : List InputField) : Prop :=
  ∀ f ∈ l, f.children = none

/-- At most one level of children nesting. -/
def Depth1Kids (l : List InputField) : Prop :=
  ∀ f ∈ l, ∀ c ∈ childListOf f, c.children = none

/-- At most two levels of children nesting: no grandchild carries children. -/
def Depth2Kids (l : List InputField) : Prop :=
  ∀ f ∈ l, ∀ c ∈ childListOf f, ∀ g ∈ childListOf c, g.children = none

/-- The flattening rule as the claim words it: exactly one top-level field
with a non-empty children list is replaced by its children; every other
sequence is unchanged. -/
def flattenedSpec (l : List InputField) : List InputField :=
  match l with
  | [f] =>
    match f.children with
    | some (c :: cs) => c :: cs
    | _ => l
  | _ => l

/-- Every depth-1 child's key is namespaced by its parent's key and a double
underscore (a consequence of the claimed `\x7bparentKey\x7d__\x7bchildName\x7d`
key rule; refuting this refutes the rule). -/
def depth1KeysNamespaced (l : List InputField) : Bool :=
  l.all fun f => (childListOf f).all fun c => jsStartsWith c.key (f.key ++ "__")

/-- Non-decreasing (lexicographic) string sequence. -/
def nonDecStr : List String → Bool
  | [] => true
  | [_] => true
  | a :: b :: rest => strLe a b && nonDecStr (b :: rest)

/-- The sort-claim's property of a sequence: if some field's terminal key
segment is `id`, the first field's terminal segment is `id` and the remaining
terminal segments are non-decreasing; otherwise all terminal segments are
non-decreasing. -/
def claimIdFirstSorted (l : List InputField) : Bool :=
  let ts := l.map (fun f => termOf f.key)
  if ts.any (fun t => t == "id") then
    match ts with
    | [] => true
    | t :: rest => (t == "id") && nonDecStr rest
  else nonDecStr ts

/-- The target order of the input sorter: the `id`-terminal field precedes
everything, other pairs are ordered by terminal key segment. -/
def ordInput (a b : InputField) : Prop :=
  termOf a.key = "id" ∨ (termOf b.key ≠ "id" ∧ strLt (termOf a.key) (termOf b.key) = true)

/-- The target order of the output sorter, on whole keys. -/
def ordOutput (a b : OutputField) : Prop :=
  a.key = "id" ∨ (b.key ≠ "id" ∧ strLt a.key b.key = true)

/-! ## Concrete fixtures for counterexamples and witnesses -/

/-- A baseline configuration: one mapped scalar, sorting disabled, no
configured samples. -/
def cfgPlain : Config :=
  { urlEnvVar := "GRAPHQL_API_URL"
    scalarMap := [("Str", "string")]
    idMap := []
    sortFields := false
    sampleFieldValues := ⟨[], [], []⟩ }

/-- Three object levels: argument type `A` has object field `b : B`; `B` has
object field `c : C` and scalar field `s`; `C` has scalar field `d`. -/
def schemaDeep : Schema :=
  ⟨[.inputObject "A" [⟨"b", .named "B"⟩] none,
    .inputObject "B" [⟨"c", .named "C"⟩, ⟨"s", .named "Str"⟩] none,
    .inputObject "C" [⟨"d", .named "Str"⟩] none,
    .scalar "Str" none]⟩

def argsDeep : List FieldLike :=
  [⟨"a", .named "A", false⟩]

/-- A two-level schema for the key-shape counterexample: `A` has one scalar
field `b`. -/
def schemaAB : Schema :=
  ⟨[.inputObject "A" [⟨"b", .named "Str"⟩] none, .scalar "Str" none]⟩

def argsXA : List FieldLike :=
  [⟨"x", .named "Str", false⟩, ⟨"a", .named "A", false⟩]

/-- The parametric three-level family for the amended key-shape theorem:
type names fixed, field names arbitrary. -/
def schemaFam (bn cn : String) : Schema :=
  ⟨[.inputObject "A" [⟨bn, .named "B"⟩] none,
    .inputObject "B" [⟨cn, .named "Str"⟩] none,
    .scalar "Str" none]⟩

/-- A self-referential input object type: `Node \x7b next: Node \x7d`. -/
def schemaCyclic : Schema :=
  ⟨[.inputObject "Node" [⟨"next", .named "Node"⟩] none]⟩

/-- The baseline configuration with sorting enabled. -/
def cfgSorted : Config :=
  { cfgPlain with sortFields := true }

/-- A bare string input field with the given key. -/
def mkIF (k : String) : InputField :=
  .mk k none k (some "string") false none none none

/-- Configured sample values with two overlapping lowercase startingWith
entries (declared in this order) and one endingWith entry. -/
def cfgSamples : Config :=
  { cfgPlain with
    sampleFieldValues := ⟨[], [("a", .str "X"), ("ab", .str "Y")], [("c", .str "Z")]⟩ }

def fieldAbc : InputField := .mk "abc" none "Abc" (some "string") false none none none

def fieldWhen : InputField := .mk "when" none "When" (some "datetime") false none none none

/-- Extract the string sample stored under a key, for stating concrete sample
results without equality on the nested `SVal` type. -/
def sampleStrAt (x : Option (Except Err (List (String × SVal)))) (k : String) :
    Option String :=
  match x with
  | some (.ok l) =>
    match List.lookup k l with
    | some (.str s) => some s
    | _ => none
  | _ => none

/-- A schema with an unmapped scalar and an enum, for the resolution
theorems' witnesses. -/
def schemaMisc : Schema :=
  ⟨[.scalar "Weird" none, .enum "Color" ["RED", "GREEN"] none, .scalar "Str" none]⟩

/-- Configuration with an identifier mapping for type `User`. -/
def cfgIdMap : Config :=
  { cfgPlain with idMap := [("User", "uuid")] }

/-! ## Claim theorems -/

/-- **C6.**  If the built input-field sequence for an operation contains
exactly one top-level field and that field has a non-empty children list, the
flattening post-step returns that field's children as the top-level sequence
with the wrapper field removed; in every other case the sequence is returned
unchanged.  (`flattenedSpec` is the claim's own wording of the rule;
`flattenStep`/`getInputFieldsFlattenedF` are the code.) -/
theorem C6_flattening :
    (∀ l : List InputField, flattenStep l = flattenedSpec l) ∧
    (∀ fuel s cfg args,
      getInputFieldsFlattenedF fuel s cfg args
        = (getInputFieldsF fuel s cfg false args []).map (Except.map flattenedSpec)) := by
  have h : ∀ l : List InputField, flattenStep l = flattenedSpec l := by
    intro l
    match l with
    | [] => rfl
    | f :: g :: rest => rfl
    | [f] =>
      cases hch : f.children with
      | none => simp [flattenStep, flattenedSpec, hch]
      | some cs =>
        cases cs with
        | nil => simp [flattenStep, flattenedSpec, hch]
        | cons c cs => simp [flattenStep, flattenedSpec, hch]
  refine ⟨h, fun fuel s cfg args => ?_⟩
  rw [getInputFieldsFlattenedF, funext h]

/-- **C8.**  During type resolution, reaching a leaf scalar layer whose type
name has no entry in the configured scalar map raises a fatal error naming
the offending type, with no implicit fallback value; and when the layer
reached is an enum type, the resolved scalar type is always `string`. -/
theorem C8_scalar_resolution (s : Schema) (cfg : Config) (r : TypeRef)
    (fn : Option String) :
    (∀ n d, s.lookupType r.innerName = some (.scalar n d) →
      List.lookup n cfg.scalarMap = none →
      getTypeDetails s cfg r fn = .error (.unmappedScalar n)) ∧
    (∀ n vs d, s.lookupType r.innerName = some (.enum n vs d) →
      ∃ td, getTypeDetails s cfg r fn = .ok td ∧
        td.scalarType = some "string" ∧ td.enumValues = vs) := by
  constructor
  · intro n d hl hm
    simp [getTypeDetails, hl, resolveDef, determineScalarType, hm, bind, Except.bind]
  · intro n vs d hl
    refine ⟨{ fieldName := fn, typeName := n, typeDef := .enum n vs d,
              scalarType := some "string", isList := r.hasListWrapper,
              isRequired := r.hasNonNullWrapper, description := d, enumValues := vs },
      ?_, rfl, rfl⟩
    simp [getTypeDetails, hl, resolveDef, determineScalarType, bind, Except.bind,
      TypeDef.name, TypeDef.descriptionOf]

/-- Witness for `C8_scalar_resolution` at the concrete schema `schemaMisc`:
the unmapped scalar `Weird` raises the naming error, and the enum `Color`
resolves with scalar type `string`. -/
theorem C8_scalar_resolution_witness :
    getTypeDetails schemaMisc cfgPlain (.named "Weird") none
      = .error (.unmappedScalar "Weird") ∧
    ∃ td, getTypeDetails schemaMisc cfgPlain (.nonNull (.named "Color")) none = .ok td ∧
      td.scalarType = some "string" ∧ td.enumValues = ["RED", "GREEN"] := by
  refine ⟨?_, ?_⟩
  · exact (C8_scalar_resolution schemaMisc cfgPlain (.named "Weird") none).1
      "Weird" none (by rfl) (by rfl)
  · exact (C8_scalar_resolution schemaMisc cfgPlain (.nonNull (.named "Color")) none).2
      "Color" ["RED", "GREEN"] none (by rfl)

/-- **C10.**  When the output-field builder is given a return type that
exposes no fields (a bare scalar or enum return type), it produces exactly
one OutputField whose key is `id` if the resolved type name is `ID` and
`value` otherwise, carrying the mapped platform scalar type (and the enum's
value names as choices when present); an unmappable type in this position is
a fatal error. -/
theorem C10_fieldless_output (s : Schema) (cfg : Config) (mode : Bool) :
    (∀ name d m, List.lookup name cfg.scalarMap = some m → m ≠ "" →
      getOutputFields s cfg (.scalar name d) mode
        = .ok [{ key := if name = "ID" then "id" else "value"
                 label := inflectionLabel name
                 type := some m
                 choices := none }]) ∧
    (∀ name vs d,
      getOutputFields s cfg (.enum name vs d) mode
        = .ok [{ key := if name = "ID" then "id" else "value"
                 label := inflectionLabel name
                 type := some "string"
                 choices := if vs.isEmpty then none else some vs }]) ∧
    (∀ name d, List.lookup name cfg.scalarMap = none →
      getOutputFields s cfg (.scalar name d) mode = .error (.unmappedScalar name)) := by
  refine ⟨fun name d m hm hne => ?_, fun name vs d => ?_, fun name d hm => ?_⟩
  · simp [getOutputFields, TypeDef.isObjectLike, getTypeDetailsDef, resolveDef,
      determineScalarType, hm, hne, TypeDef.name, TypeDef.descriptionOf,
      bind, Except.bind]
  · simp [getOutputFields, TypeDef.isObjectLike, getTypeDetailsDef, resolveDef,
      determineScalarType, TypeDef.name, TypeDef.descriptionOf, bind, Except.bind]
  · simp [getOutputFields, TypeDef.isObjectLike, getTypeDetailsDef, resolveDef,
      determineScalarType, hm, TypeDef.name, TypeDef.descriptionOf, bind, Except.bind]

/-- Witness for `C10_fieldless_output`: a mapped `ID` scalar return yields
the single `id` output field; the enum `Color` yields the single `value`
field with its values as choices; the unmapped scalar `Weird` is fatal. -/
theorem C10_fieldless_output_witness :
    getOutputFields schemaMisc { cfgPlain with scalarMap := [("ID", "string")] }
        (.scalar "ID" none) false
      = .ok [{ key := "id", label := "ID", type := some "string", choices := none }] ∧
    getOutputFields schemaMisc cfgPlain (.enum "Color" ["RED", "GREEN"] none) false
      = .ok [{ key := "value", label := "Color", type := some "string",
               choices := some ["RED", "GREEN"] }] ∧
    getOutputFields schemaMisc cfgPlain (.scalar "Weird" none) false
      = .error (.unmappedScalar "Weird") := by
  refine ⟨?_, ?_, ?_⟩
  · exact (C10_fieldless_output schemaMisc
      { cfgPlain with scalarMap := [("ID", "string")] } false).1
      "ID" none "string" (by rfl) (by decide)
  · exact (C10_fieldless_output schemaMisc cfgPlain false).2.1 "Color" ["RED", "GREEN"] none
  · exact (C10_fieldless_output schemaMisc cfgPlain false).2.2 "Weird" none (by rfl)

/-- **C9.**  For a mutation whose return type participates in the configured
identifier map, the generated action content contains a response-reshaping
expression that copies the mapped source field's value into a new `id`
property on the result, and the mutation's result is treated as a single
object: the generated `perform` ends in a bare
`return response.data.data.<mutation>;` (no array wrapping), under the
"This should return a single object" comment. -/
theorem C9_mutation_id_mapping (cfg : Config)
    (mutation noun label description gql inTxt sampleTxt outTxt : String)
    (hasInput : Bool) (src : String)
    (hsrc : List.lookup noun cfg.idMap = some src) (hne : src ≠ "") :
    (∃ p q, mutationActionContent cfg mutation noun label description gql
        inTxt sampleTxt outTxt hasInput
      = p ++ mutationReshapeExpr mutation src ++ q) ∧
    (∃ p q, mutationActionContent cfg mutation noun label description gql
        inTxt sampleTxt outTxt hasInput
      = p ++ ("\n  // This should return a single object\n  return response.data.data."
              ++ mutation ++ ";\n\x7d;\n") ++ q) := by
  have hidm : mutationIdMapping cfg mutation noun
      = "\n  // Will handle the id mapping to a new \"id\" field for Zapier compatibility\n  "
        ++ mutationReshapeExpr mutation src ++ "\n    " := by
    simp [mutationIdMapping, idMapTruthy, hsrc, hne]
  constructor
  · refine ⟨mutationContentHead cfg mutation gql hasInput
      ++ "\n  // Will handle the id mapping to a new \"id\" field for Zapier compatibility\n  ",
      "\n    " ++ (mutationReturnPart mutation
        ++ mutationContentTail mutation noun label description inTxt sampleTxt outTxt), ?_⟩
    rw [mutationActionContent, hidm]
    simp only [String.append_assoc]
  · refine ⟨mutationContentHead cfg mutation gql hasInput
      ++ mutationIdMapping cfg mutation noun,
      mutationContentTail mutation noun label description inTxt sampleTxt outTxt, ?_⟩
    rw [mutationActionContent, mutationReturnPart]

/-- Witness for `C9_mutation_id_mapping`: the `delete_users` mutation on
identifier-mapped type `User` (mapped source field `uuid`). -/
theorem C9_mutation_id_mapping_witness :
    (∃ p q, mutationActionContent cfgIdMap "delete_users" "User" "Create User" "desc"
        "GQL" "[]" "\x7b\x7d" "[]" true
      = p ++ mutationReshapeExpr "delete_users" "uuid" ++ q) ∧
    (∃ p q, mutationActionContent cfgIdMap "delete_users" "User" "Create User" "desc"
        "GQL" "[]" "\x7b\x7d" "[]" true
      = p ++ ("\n  // This should return a single object\n  return response.data.data."
              ++ "delete_users" ++ ";\n\x7d;\n") ++ q) :=
  C9_mutation_id_mapping cfgIdMap "delete_users" "User" "Create User" "desc"
    "GQL" "[]" "\x7b\x7d" "[]" true "uuid" (by rfl) (by decide)

/-- **C1, counterexample.**  On the three-object-level schema
`A \x7b b: B \x7d`, `B \x7b c: C, s: Str \x7d`, `C \x7b d: Str \x7d`, the
built input-field tree for argument `a : A` has two levels of `children`
nesting: the element `b` of `a`'s children list itself carries the non-empty
children list `[b__s]` — refuting "no element of any `children` list itself
carries a non-empty `children` list". -/
theorem C1_counterexample :
    (getInputFieldsF 20 schemaDeep cfgPlain false argsDeep []).map
      (Except.map hasDeepChild) = some (.ok true) := by
  rfl

/-- **C3, counterexample.**  With configured sample values
`startingWith = \x7b a: "X", ab: "Y" \x7d` (in that declaration order) and
`endingWith = \x7b c: "Z" \x7d`, the field keyed `abc` receives sample `"Z"`:
the last matching `endingWith` entry overrides every matching `startingWith`
entry — not `"X"`, the first matching configured value in the claim's
precedence order (and not even the last prefix match `"Y"`). -/
theorem C3_counterexample :
    sampleStrAt (createSamplesF "NOW" cfgSamples 5 [fieldAbc] []) "abc" = some "Z"
      ∧ ("Z" : String) ≠ "X" ∧ ("Z" : String) ≠ "Y" := by
  refine ⟨by rfl, by decide, by decide⟩

/-- **C4, counterexample.**  The `lib/index.js` sample synthesizer's datetime
default embeds the ambient clock reading: on the identical (schema-free)
field list and configuration, two runs at different clock values produce
different sample data, refuting "deterministic pure functions of
(schema, config) alone". -/
theorem C4_counterexample :
    sampleStrAt (createSamplesLibF "2024-01-01T00:00:00.000Z" cfgPlain 5 [fieldWhen] [])
        "when" = some "2024-01-01T00:00:00.000Z"
      ∧ sampleStrAt (createSamplesLibF "2025-06-15T12:00:00.000Z" cfgPlain 5 [fieldWhen] [])
        "when" = some "2025-06-15T12:00:00.000Z"
      ∧ ("2024-01-01T00:00:00.000Z" : String) ≠ "2025-06-15T12:00:00.000Z" := by
  refine ⟨by rfl, by rfl, by decide⟩

/-- **C5, counterexample.**  With sorting enabled, the sibling sequence with
keys `a`, `b__id`, `id` (two sibling fields whose terminal key segment is
`id`) sorts to `[b__id, id, a]`: the remaining fields after the first have
terminal segments `[id, a]`, which decrease — refuting
"order all remaining sibling fields in non-decreasing lexicographic order of
terminal key segment". -/
theorem C5_counterexample :
    claimIdFirstSorted (sortInputFields cfgSorted [mkIF "a", mkIF "b__id", mkIF "id"])
      = false := by
  rfl

/-- **C7, counterexample.**  For the argument list `x : Str, a : A` with
`A \x7b b: Str \x7d`, the emitted (platform-facing, flattened) sequence
contains the depth-1 child of `a` with key `b`, not `a__b`: scalar children
expanded directly under a top-level field carry the bare child name,
refuting the `\x7bparentKey\x7d__\x7bchildName\x7d` rule for depth-1
children. -/
theorem C7_counterexample :
    (getInputFieldsFlattenedF 20 schemaAB cfgPlain argsXA).map
      (Except.map depth1KeysNamespaced) = some (.ok false) := by
  rfl

/-! ## Termination of the child-expansion resolvers (C2) -/

/-- On the cyclic schema, the `lib/index.js` resolver runs out of any amount
of fuel: its recursion into `Node`'s field `next : Node` never bottoms out. -/
lemma libF_cyclic_none (n : Nat) :
    ∀ (cfg : Config) (fn : Option String) (d : Nat),
      libF schemaCyclic cfg n (.res (.named "Node") fn d) = none ∧
      libF schemaCyclic cfg n (.kids [⟨"next", .named "Node"⟩] fn d) = none := by
  induction n with
  | zero => intro cfg fn d; exact ⟨rfl, rfl⟩
  | succ n ih =>
    intro cfg fn d
    have hg : getTypeDetails schemaCyclic cfg (.named "Node") fn
        = .ok ⟨fn, "Node", .inputObject "Node" [⟨"next", .named "Node"⟩] none,
               none, false, false, none, []⟩ := rfl
    constructor
    · simp [libF, hg, TypeDef.isObjectLike, TypeDef.fieldsOf, (ih cfg fn d).2]
    · simp [libF, (ih cfg fn d).1]

/-- Raising the fuel of the depth-capped resolver never changes a result it
already produced. -/
lemma p4F_mono (s : Schema) (cfg : Config) :
    ∀ (m n : Nat) (t : RTask), m ≤ n →
      (p4F s cfg m t).isSome = true → p4F s cfg n t = p4F s cfg m t := by
  intro m
  induction m with
  | zero => intro n t h hs; simp [p4F] at hs
  | succ m ih =>
    intro n t h hs
    obtain ⟨n, rfl⟩ : ∃ k, n = k + 1 := ⟨n - 1, by omega⟩
    have hmn : m ≤ n := by omega
    match t with
    | .kids [] fn d => rfl
    | .kids (f :: rest) fn d =>
      simp only [p4F] at hs ⊢
      cases hr : p4F s cfg m (.res (unwrapOneList f.type) fn d) with
      | none => rw [hr] at hs; simp at hs
      | some r =>
        rw [hr] at hs
        rw [ih n (.res (unwrapOneList f.type) fn d) hmn (by rw [hr]; rfl), hr]
        cases r with
        | error e => rfl
        | ok rr =>
          cases rr with
          | kids l => rfl
          | res child =>
            simp only at hs ⊢
            cases hr2 : p4F s cfg m (.kids rest fn d) with
            | none => rw [hr2] at hs; simp at hs
            | some r2 =>
              rw [ih n (.kids rest fn d) hmn (by rw [hr2]; rfl), hr2]
    | .res r fn d =>
      simp only [p4F] at hs ⊢
      cases hg : getTypeDetails s cfg r fn with
      | error e => rfl
      | ok td =>
        rw [hg] at hs
        dsimp only at hs ⊢
        by_cases hd : d > 1
        · simp only [hd, if_true]
        · simp only [hd, if_false] at hs ⊢
          by_cases ho : td.typeDef.isObjectLike
          · simp only [ho, if_true] at hs ⊢
            cases hk : p4F s cfg m (.kids td.typeDef.fieldsOf fn (d + 1)) with
            | none => rw [hk] at hs; simp at hs
            | some rk =>
              rw [ih n (.kids td.typeDef.fieldsOf fn (d + 1)) hmn (by rw [hk]; rfl), hk]
          · simp [ho]

/-- Helper: a member's field count is at most the folded maximum. -/
lemma length_le_foldr_max :
    ∀ (l : List TypeDef) (td : TypeDef), td ∈ l →
      td.fieldsOf.length ≤ (l.map (fun t => t.fieldsOf.length)).foldr max 0 := by
  intro l
  induction l with
  | nil => intro td h; cases h
  | cons a l ih =>
    intro td h
    rcases List.mem_cons.mp h with rfl | h2
    · simp [List.foldr]
    · have := ih td h2
      simp [List.foldr] at this ⊢
      omega

/-- A type definition found in the schema has at most `maxFields` declared
fields. -/
lemma fieldsOf_length_le_maxFields (s : Schema) (td : TypeDef) (h : td ∈ s.types) :
    td.fieldsOf.length ≤ s.maxFields :=
  length_le_foldr_max s.types td h

/-- A successful resolution's `typeDef` is a member of the schema. -/
lemma getTypeDetails_typeDef_mem (s : Schema) (cfg : Config) (r : TypeRef)
    (fn : Option String) (td : TypeDetails0)
    (h : getTypeDetails s cfg r fn = .ok td) : td.typeDef ∈ s.types := by
  unfold getTypeDetails at h
  cases hl : s.lookupType r.innerName with
  | none => rw [hl] at h; cases h
  | some d0 =>
    rw [hl] at h
    have hmem : d0 ∈ s.types := List.mem_of_find?_eq_some hl
    unfold resolveDef at h
    dsimp only at h
    cases hsc : determineScalarType cfg d0 with
    | error e => rw [hsc] at h; simp [bind, Except.bind] at h
    | ok st =>
      rw [hsc] at h
      simp [bind, Except.bind] at h
      rw [← h]
      exact hmem

/-- Fuel 1 suffices for the capped resolver at depth 2 or more. -/
lemma p4F_res_deep (s : Schema) (cfg : Config) (r : TypeRef) (fn : Option String)
    (d n : Nat) (hd : 2 ≤ d) (hn : 1 ≤ n) :
    (p4F s cfg n (.res r fn d)).isSome = true := by
  obtain ⟨n, rfl⟩ : ∃ k, n = k + 1 := ⟨n - 1, by omega⟩
  simp only [p4F]
  cases hg : getTypeDetails s cfg r fn with
  | error e => rfl
  | ok td => simp [show d > 1 by omega]

/-- Fuel `length + 1` suffices for a child list at depth 2 or more. -/
lemma p4F_kids_deep (s : Schema) (cfg : Config) :
    ∀ (l : List FieldDef) (fn : Option String) (d n : Nat), 2 ≤ d →
      l.length + 1 ≤ n → (p4F s cfg n (.kids l fn d)).isSome = true := by
  intro l
  induction l with
  | nil =>
    intro fn d n _ hn
    obtain ⟨n, rfl⟩ : ∃ k, n = k + 1 := ⟨n - 1, by omega⟩
    rfl
  | cons f rest ih =>
    intro fn d n hd hn
    obtain ⟨n, rfl⟩ : ∃ k, n = k + 1 := ⟨n - 1, by omega⟩
    simp only [p4F]
    have h1 := p4F_res_deep s cfg (unwrapOneList f.type) fn d n hd (by simp at hn; omega)
    cases hr : p4F s cfg n (.res (unwrapOneList f.type) fn d) with
    | none => rw [hr] at h1; cases h1
    | some r =>
      cases r with
      | error e => rfl
      | ok rr =>
        cases rr with
        | kids _ => rfl
        | res child =>
          have h2 := ih fn d n hd (by simp at hn ⊢; omega)
          cases hr2 : p4F s cfg n (.kids rest fn d) with
          | none => rw [hr2] at h2; cases h2
          | some r2 =>
            cases r2 with
            | error e => rfl
            | ok rr2 => cases rr2 with
              | res _ => rfl
              | kids _ => rfl

/-- Fuel `maxFields + 2` suffices for a single resolution at depth 1. -/
lemma p4F_res_depth1 (s : Schema) (cfg : Config) (r : TypeRef) (fn : Option String)
    (n : Nat) (hn : s.maxFields + 2 ≤ n) :
    (p4F s cfg n (.res r fn 1)).isSome = true := by
  obtain ⟨n, rfl⟩ : ∃ k, n = k + 1 := ⟨n - 1, by omega⟩
  simp only [p4F]
  cases hg : getTypeDetails s cfg r fn with
  | error e => rfl
  | ok td =>
    simp only [show ¬ (1 > 1) by omega, if_false]
    by_cases ho : td.typeDef.isObjectLike
    · simp only [ho, if_true]
      have hlen : td.typeDef.fieldsOf.length ≤ s.maxFields :=
        fieldsOf_length_le_maxFields s td.typeDef (getTypeDetails_typeDef_mem s cfg r fn td hg)
      have h2 := p4F_kids_deep s cfg td.typeDef.fieldsOf fn 2 n (by omega) (by omega)
      cases hk : p4F s cfg n (.kids td.typeDef.fieldsOf fn (1 + 1)) with
      | none => rw [hk] at h2; cases h2
      | some rk =>
        cases rk with
        | error e => rfl
        | ok rr => cases rr with
          | res _ => rfl
          | kids _ => rfl
    · simp [ho]

/-- Fuel `length + maxFields + 3` suffices for a child list at depth 1. -/
lemma p4F_kids_depth1 (s : Schema) (cfg : Config) :
    ∀ (l : List FieldDef) (fn : Option String) (n : Nat),
      l.length + s.maxFields + 3 ≤ n → (p4F s cfg n (.kids l fn 1)).isSome = true := by
  intro l
  induction l with
  | nil =>
    intro fn n hn
    obtain ⟨n, rfl⟩ : ∃ k, n = k + 1 := ⟨n - 1, by omega⟩
    rfl
  | cons f rest ih =>
    intro fn n hn
    obtain ⟨n, rfl⟩ : ∃ k, n = k + 1 := ⟨n - 1, by omega⟩
    simp only [p4F]
    have h1 := p4F_res_depth1 s cfg (unwrapOneList f.type) fn n (by simp at hn; omega)
    cases hr : p4F s cfg n (.res (unwrapOneList f.type) fn 1) with
    | none => rw [hr] at h1; cases h1
    | some r =>
      cases r with
      | error e => rfl
      | ok rr =>
        cases rr with
        | kids _ => rfl
        | res child =>
          have h2 := ih fn n (by simp at hn ⊢; omega)
          cases hr2 : p4F s cfg n (.kids rest fn 1) with
          | none => rw [hr2] at h2; cases h2
          | some r2 =>
            cases r2 with
            | error e => rfl
            | ok rr2 => cases rr2 with
              | res _ => rfl
              | kids _ => rfl

/-- **C2.**  For every input schema type graph, including cyclic ones, the
depth-capped child-expansion resolver (`part_004`'s
`getTypeDetailsWithChildren`) terminates — `p4Bound s` fuel always produces a
result, and results are stable under more fuel — while the
`src/lib/index.js` variant, which has no depth counter, fails to terminate on
the self-referential type `Node \x7b next: Node \x7d`: it exhausts every
amount of fuel. -/
theorem C2_resolver_termination :
    (∀ (cfg : Config) (fuel : Nat) (fn : Option String),
      libF schemaCyclic cfg fuel (.res (.named "Node") fn 0) = none) ∧
    (∀ (s : Schema) (cfg : Config) (m n : Nat) (t : RTask), m ≤ n →
      (p4F s cfg m t).isSome = true → p4F s cfg n t = p4F s cfg m t) ∧
    (∀ (s : Schema) (cfg : Config) (r : TypeRef) (fn : Option String),
      (p4F s cfg (p4Bound s) (.res r fn 0)).isSome = true) := by
  refine ⟨fun cfg fuel fn => (libF_cyclic_none fuel cfg fn 0).1,
    fun s cfg m n t h hs => p4F_mono s cfg m n t h hs,
    fun s cfg r fn => ?_⟩
  show (p4F s cfg (2 * s.maxFields + 5) (.res r fn 0)).isSome = true
  obtain ⟨n, hn⟩ : ∃ k, 2 * s.maxFields + 5 = k + 1 := ⟨2 * s.maxFields + 4, rfl⟩
  rw [hn]
  simp only [p4F]
  cases hg : getTypeDetails s cfg r fn with
  | error e => rfl
  | ok td =>
    simp only [show ¬ (0 > 1) by omega, if_false]
    by_cases ho : td.typeDef.isObjectLike
    · simp only [ho, if_true]
      have hlen : td.typeDef.fieldsOf.length ≤ s.maxFields :=
        fieldsOf_length_le_maxFields s td.typeDef (getTypeDetails_typeDef_mem s cfg r fn td hg)
      have h2 := p4F_kids_depth1 s cfg td.typeDef.fieldsOf fn n (by omega)
      cases hk : p4F s cfg n (.kids td.typeDef.fieldsOf fn (0 + 1)) with
      | none => rw [hk] at h2; cases h2
      | some rk =>
        cases rk with
        | error e => rfl
        | ok rr => cases rr with
          | res _ => rfl
          | kids _ => rfl
    · simp [ho]

/-- The `part_004` sample synthesizer never reads the clock: its result is
the same for every value of `now`. -/
lemma createSamplesF_now_irrelevant :
    ∀ (n : Nat) (a b : String) (cfg : Config) (fs : List InputField)
      (acc : List (String × SVal)),
      createSamplesF a cfg n fs acc = createSamplesF b cfg n fs acc := by
  intro n
  induction n with
  | zero => intro a b cfg fs acc; rfl
  | succ n ih =>
    intro a b cfg fs acc
    cases fs with
    | nil => rfl
    | cons f rest =>
      simp only [createSamplesF]
      by_cases h1 : sampleTruthyAt acc f.key
      · simp only [h1, if_true]
        exact ih a b cfg rest acc
      · simp only [h1, if_false]
        cases hc : f.choices with
        | some cs =>
          cases cs with
          | cons c cs0 => exact ih a b cfg rest (jsSet acc f.key (.str c))
          | nil =>
            cases hv : getConfiguredValue cfg f with
            | some v => exact ih a b cfg rest (jsSet acc f.key v)
            | none =>
              cases hch : f.children with
              | some cs1 =>
                dsimp only
                rw [ih a b cfg cs1 []]
                cases createSamplesF b cfg n cs1 [] with
                | none => rfl
                | some r =>
                  cases r with
                  | error e => rfl
                  | ok sub => exact ih a b cfg rest (jsSet acc f.key (.obj sub))
              | none =>
                cases defaultSampleP4 f with
                | error e => rfl
                | ok v => exact ih a b cfg rest (jsSet acc f.key v)
        | none =>
          cases hv : getConfiguredValue cfg f with
          | some v => exact ih a b cfg rest (jsSet acc f.key v)
          | none =>
            cases hch : f.children with
            | some cs1 =>
              dsimp only
              rw [ih a b cfg cs1 []]
              cases createSamplesF b cfg n cs1 [] with
              | none => rfl
              | some r =>
                cases r with
                | error e => rfl
                | ok sub => exact ih a b cfg rest (jsSet acc f.key (.obj sub))
            | none =>
              cases defaultSampleP4 f with
              | error e => rfl
              | ok v => exact ih a b cfg rest (jsSet acc f.key v)

/-- **C4 (amended).**  The `part_004` resolution pipeline — flattened input
fields, GraphQL document text, output fields, action samples and test
samples — is a pure function of (schema, configuration, arguments, return
type, operation): its result is identical for every ambient clock reading,
so two runs on the same inputs produce byte-identical document text and
identical field and sample structures. -/
theorem C4_pipeline_deterministic (fuel : Nat) (nowA nowB : String) (s : Schema)
    (cfg : Config) (args : List FieldLike) (retType : TypeDef) (qm op : String) :
    pipelineP4 fuel nowA s cfg args retType qm op
      = pipelineP4 fuel nowB s cfg args retType qm op := by
  unfold pipelineP4
  cases getInputFieldsFlattenedF fuel s cfg args with
  | none => rfl
  | some x =>
    cases x with
    | error e => rfl
    | ok inputFields =>
      simp only [obind]
      cases getInputFieldsF fuel s cfg true args [] with
      | none => rfl
      | some y =>
        cases y with
        | error e => rfl
        | ok gqlIns =>
          simp only [obind]
          cases getOutputFields s cfg retType false with
          | error e => rfl
          | ok outs =>
            simp only [obind]
            cases getOutputFields s cfg retType true with
            | error e => rfl
            | ok outsG =>
              simp only [obind]
              cases buildGQL fuel qm op gqlIns outsG with
              | none => rfl
              | some z =>
                cases z with
                | error e => rfl
                | ok doc =>
                  simp only [obind]
                  rw [createSamplesF_now_irrelevant fuel nowA nowB cfg
                    (outs.map outputToInput) []]
                  cases createSamplesF nowB cfg fuel (outs.map outputToInput) [] with
                  | none => rfl
                  | some w =>
                    cases w with
                    | error e => rfl
                    | ok samples =>
                      simp only [obind]
                      rw [createSamplesF_now_irrelevant fuel nowA nowB cfg inputFields []]

/-! ## Depth of the built input-field trees (C1) -/

lemma mem_insertCmp {α : Type} (cmp : α → α → Int) (x : α) (l : List α) (a : α) :
    a ∈ insertCmp cmp x l ↔ a = x ∨ a ∈ l := by
  induction l with
  | nil => simp [insertCmp]
  | cons y ys ih =>
    simp only [insertCmp]
    by_cases h : cmp x y < 0
    · simp [h]
    · simp [h, ih]
      tauto

lemma mem_sortCmp {α : Type} (cmp : α → α → Int) (l : List α) (a : α) :
    a ∈ sortCmp cmp l ↔ a ∈ l := by
  induction l with
  | nil => simp [sortCmp]
  | cons x xs ih =>
    show a ∈ insertCmp cmp x (sortCmp cmp xs) ↔ _
    rw [mem_insertCmp]
    simp [ih]

lemma mem_sortInputFields (cfg : Config) (l : List InputField) (a : InputField) :
    a ∈ sortInputFields cfg l ↔ a ∈ l := by
  unfold sortInputFields
  split
  · exact mem_sortCmp cmpInput l a
  · exact Iff.rfl

/-- The nesting-depth grade a builder result satisfies, indexed by the length
of the parent path it was built at: paths of length 2 and more yield only
childless fields, length 1 yields at most one level, the top level at most
two. -/
def gradeAt (k : Nat) (l : List InputField) : Prop :=
  if 2 ≤ k then NoKids l else if k = 1 then Depth1Kids l else Depth2Kids l

lemma gradeAt_nil (k : Nat) : gradeAt k [] := by
  unfold gradeAt NoKids Depth1Kids Depth2Kids
  split
  · simp
  · split <;> simp

lemma gradeAt_mono_mem (k : Nat) (l1 l2 l3 : List InputField)
    (hmem : ∀ a, a ∈ l2 → a ∈ l1 ∨ a ∈ l3)
    (h1 : gradeAt k l1) (h3 : gradeAt k l3) : gradeAt k l2 := by
  unfold gradeAt NoKids Depth1Kids Depth2Kids at h1 h3 ⊢
  by_cases hk2 : 2 ≤ k
  · simp only [if_pos hk2] at h1 h3 ⊢
    intro f hf
    rcases hmem f hf with hh | hh
    · exact h1 f hh
    · exact h3 f hh
  · by_cases hk1 : k = 1
    · simp only [if_neg hk2, if_pos hk1] at h1 h3 ⊢
      intro f hf
      rcases hmem f hf with hh | hh
      · exact h1 f hh
      · exact h3 f hh
    · simp only [if_neg hk2, if_neg hk1] at h1 h3 ⊢
      intro f hf
      rcases hmem f hf with hh | hh
      · exact h1 f hh
      · exact h3 f hh

lemma gradeAt_cons_childless (k : Nat) (x : InputField) (l : List InputField)
    (hx : x.children = none) (h : gradeAt k l) : gradeAt k (x :: l) := by
  unfold gradeAt NoKids Depth1Kids Depth2Kids at h ⊢
  have hcl : childListOf x = [] := by simp [childListOf, hx]
  by_cases hk2 : 2 ≤ k
  · simp only [if_pos hk2] at h ⊢
    intro f hf
    rcases List.mem_cons.mp hf with rfl | hf2
    · exact hx
    · exact h f hf2
  · by_cases hk1 : k = 1
    · simp only [if_neg hk2, if_pos hk1] at h ⊢
      intro f hf
      rcases List.mem_cons.mp hf with rfl | hf2
      · intro c hc
        rw [hcl] at hc
        cases hc
      · exact h f hf2
    · simp only [if_neg hk2, if_neg hk1] at h ⊢
      intro f hf
      rcases List.mem_cons.mp hf with rfl | hf2
      · intro c hc
        rw [hcl] at hc
        cases hc
      · exact h f hf2

lemma gradeAt_zero (l : List InputField) : gradeAt 0 l ↔ Depth2Kids l := by
  unfold gradeAt
  norm_num

lemma gradeAt_one (l : List InputField) : gradeAt 1 l ↔ Depth1Kids l := by
  unfold gradeAt
  norm_num

lemma gradeAt_two (l : List InputField) : gradeAt 2 l ↔ NoKids l := by
  unfold gradeAt
  norm_num

lemma scalarInputField_children (mode : Bool) (fd : List String) (f : FieldLike)
    (td : TypeDetails0) : (scalarInputField mode fd f td).children = none := rfl

lemma parentInputField_children (mode : Bool) (fd : List String) (f : FieldLike)
    (td : TypeDetails0) (kids : List InputField) :
    (parentInputField mode fd f td kids).children
      = (if kids.isEmpty then none else some kids) := rfl

/-- The grading invariant of the builder: results of `.fields` tasks at
parent-path length `k` satisfy `gradeAt k`, results of `.child` tasks (whose
elements are built one level deeper) satisfy `gradeAt (k + 1)`. -/
lemma buildF_grade (s : Schema) (cfg : Config) (mode : Bool) :
    ∀ (n : Nat) (t : BTask) (l : List InputField),
      buildF s cfg mode n t = some (.ok l) →
      (match t with
       | .fields _ fd => gradeAt fd.length l
       | .child _ _ fd => gradeAt (fd.length + 1) l) := by
  intro n
  induction n with
  | zero => intro t l h; cases h
  | succ n ih =>
    intro t l h
    match t with
    | .fields [] fd =>
      cases h
      exact gradeAt_nil _
    | .fields (f :: rest) fd =>
      simp only [buildF] at h
      cases hp : p4F s cfg (n + 1) (.res f.typeRef (some f.name) 0) with
      | none => rw [hp] at h; cases h
      | some pr =>
        rw [hp] at h
        cases pr with
        | error e => cases h
        | ok rr =>
          cases rr with
          | kids _ => cases h
          | res tdt =>
            cases tdt with
            | node td ch =>
              dsimp only at h
              by_cases hch : ch.isEmpty
              · simp only [hch, if_true] at h
                cases hb : buildF s cfg mode n (.fields rest fd) with
                | none => rw [hb] at h; cases h
                | some br =>
                  rw [hb] at h
                  cases br with
                  | error e => cases h
                  | ok l0 =>
                    cases h
                    exact gradeAt_cons_childless _ _ _
                      (scalarInputField_children mode fd f td) (ih _ l0 hb)
              · simp only [hch, if_false] at h
                by_cases hfd : fd.length > 1
                · simp only [hfd, if_true] at h
                  have := ih (.fields rest fd) l h
                  exact this
                · simp only [hfd, if_false] at h
                  cases hk : buildF s cfg mode n
                      (.child (ch.map (fun p => (p.1, p.2.details)))
                        (jsFieldName td.fieldName) fd) with
                  | none => rw [hk] at h; cases h
                  | some kr =>
                    rw [hk] at h
                    cases kr with
                    | error e => cases h
                    | ok rawKids =>
                      cases hb : buildF s cfg mode n (.fields rest fd) with
                      | none => rw [hb] at h; cases h
                      | some br =>
                        rw [hb] at h
                        cases br with
                        | error e => cases h
                        | ok l0 =>
                          cases h
                          have hkids := ih _ rawKids hk
                          have hrest := ih _ l0 hb
                          dsimp only at hkids hrest ⊢
                          have hmemk : ∀ a, a ∈ sortInputFields cfg rawKids → a ∈ rawKids :=
                            fun a ha => (mem_sortInputFields cfg rawKids a).mp ha
                          have hchild : ∀ c ∈ childListOf
                              (parentInputField mode fd f td (sortInputFields cfg rawKids)),
                              c ∈ rawKids := by
                            intro c hc
                            unfold childListOf at hc
                            rw [parentInputField_children] at hc
                            by_cases he : (sortInputFields cfg rawKids).isEmpty
                            · simp [he] at hc
                            · simp only [he, if_false, Option.getD_some] at hc
                              exact hmemk c hc
                          have hf01 : fd.length = 0 ∨ fd.length = 1 := by omega
                          rcases hf01 with hf0 | hf1
                          · rw [hf0] at hrest ⊢
                            rw [hf0] at hkids
                            rw [gradeAt_zero] at hrest ⊢
                            rw [show (0 : Nat) + 1 = 1 from rfl, gradeAt_one] at hkids
                            intro f2 hf2
                            rcases List.mem_cons.mp hf2 with rfl | hf3
                            · intro c hc g hg
                              exact hkids c (hchild c hc) g hg
                            · exact hrest f2 hf3
                          · rw [hf1] at hrest ⊢
                            rw [hf1] at hkids
                            rw [gradeAt_one] at hrest ⊢
                            rw [show (1 : Nat) + 1 = 2 from rfl, gradeAt_two] at hkids
                            intro f2 hf2
                            rcases List.mem_cons.mp hf2 with rfl | hf3
                            · intro c hc
                              exact hkids c (hchild c hc)
                            · exact hrest f2 hf3
    | .child [] pn fd =>
      cases h
      exact gradeAt_nil _
    | .child ((k0, ctd) :: rest) pn fd =>
      simp only [buildF] at h
      by_cases hfd : fd.length > 1
      · simp only [hfd, if_true] at h
        cases h
        exact gradeAt_nil _
      · simp only [hfd, if_false] at h
        cases h1 : buildF s cfg mode n
            (.fields [⟨k0, .named ctd.typeName, ctd.isRequired⟩] (fd ++ [pn])) with
        | none => rw [h1] at h; cases h
        | some r1 =>
          rw [h1] at h
          cases r1 with
          | error e => cases h
          | ok one =>
            cases h2 : buildF s cfg mode n (.child rest pn fd) with
            | none => rw [h2] at h; cases h
            | some r2 =>
              rw [h2] at h
              cases r2 with
              | error e => cases h
              | ok more =>
                cases h
                have hone := ih _ one h1
                have hmore := ih _ more h2
                simp only [List.length_append, List.length_cons, List.length_nil] at hone
                refine gradeAt_mono_mem _ one _ more (fun a ha => ?_) ?_ hmore
                · rcases List.mem_append.mp ha with ha1 | ha2
                  · exact Or.inl ((mem_sortInputFields cfg one a).mp ha1)
                  · exact Or.inr ha2
                · exact hone

/-- Flattening cannot deepen a tree: promoting the single wrapper's children
to the top level preserves the two-level depth bound. -/
lemma Depth2Kids_flattenStep (l : List InputField) (h : Depth2Kids l) :
    Depth2Kids (flattenStep l) := by
  match l with
  | [] => exact h
  | f :: g :: rest => exact h
  | [f] =>
    cases hch : f.children with
    | none => simpa [flattenStep, hch] using h
    | some cs =>
      cases cs with
      | nil => simpa [flattenStep, hch] using h
      | cons c cs0 =>
        have hred : flattenStep [f] = c :: cs0 := by
          simp [flattenStep, hch]
        rw [hred]
        have hf := h f (List.mem_singleton.mpr rfl)
        have hcl : childListOf f = c :: cs0 := by simp [childListOf, hch]
        rw [hcl] at hf
        intro f2 hf2 c2 hc2 g2 hg2
        have h2 : c2.children = none := hf f2 hf2 c2 hc2
        rw [show childListOf c2 = [] from by simp [childListOf, h2]] at hg2
        cases hg2

/-- Every successful platform or GraphQL build satisfies the two-level depth
bound. -/
lemma getInputFieldsF_depth2 (fuel : Nat) (s : Schema) (cfg : Config) (mode : Bool)
    (args : List FieldLike) :
    ∀ l, getInputFieldsF fuel s cfg mode args [] = some (.ok l) → Depth2Kids l := by
  intro l h
  unfold getInputFieldsF at h
  by_cases hemp : args.isEmpty
  · rw [if_pos hemp] at h
    cases h
    intro f hf
    cases hf
  · rw [if_neg hemp] at h
    cases hb : buildF s cfg mode fuel (.fields args []) with
    | none => rw [hb] at h; cases h
    | some br =>
      rw [hb] at h
      cases br with
      | error e => cases h
      | ok l0 =>
        cases h
        have h0 : gradeAt 0 l0 := buildF_grade s cfg mode fuel (.fields args []) l0 hb
        have : gradeAt 0 (sortInputFields cfg l0) :=
          gradeAt_mono_mem 0 l0 (sortInputFields cfg l0) []
            (fun a ha => Or.inl ((mem_sortInputFields cfg l0 a).mp ha))
            h0 (gradeAt_nil 0)
        exact (gradeAt_zero _).mp this

/-- **C1 (amended).**  The built InputField trees contain at most two levels
of `children` nesting: a top-level field's children may themselves carry
children, but the fields in those second-level lists never do — the deeper
structure is absent.  This holds for both build modes and is preserved by
the flattening post-step.  (OutputFields carry no `children` at all.) -/
theorem C1_depth_le_two (fuel : Nat) (s : Schema) (cfg : Config) (mode : Bool)
    (args : List FieldLike) :
    (∀ l, getInputFieldsF fuel s cfg mode args [] = some (.ok l) → Depth2Kids l) ∧
    (∀ l, getInputFieldsFlattenedF fuel s cfg args = some (.ok l) → Depth2Kids l) := by
  refine ⟨getInputFieldsF_depth2 fuel s cfg mode args, fun l h => ?_⟩
  unfold getInputFieldsFlattenedF at h
  cases hg : getInputFieldsF fuel s cfg false args [] with
  | none => rw [hg] at h; cases h
  | some gr =>
    rw [hg] at h
    cases gr with
    | error e => cases h
    | ok l1 =>
      cases h
      exact Depth2Kids_flattenStep l1 (getInputFieldsF_depth2 fuel s cfg false args l1 hg)

/-- Witness tree for the depth bound: the build of `argsDeep` on
`schemaDeep`. -/
def deepBuilt : List InputField :=
  [.mk "a" none "a" none false none none (some
    [.mk "b" none "b" none false none none (some
      [.mk "b__s" none "s" (some "string") false none none none])])]

/-- Witness for `C1_depth_le_two`: the concrete three-level build satisfies
the two-level bound. -/
theorem C1_depth_le_two_witness :
    getInputFieldsF 20 schemaDeep cfgPlain false argsDeep [] = some (.ok deepBuilt) ∧
    Depth2Kids deepBuilt :=
  ⟨rfl, (C1_depth_le_two 20 schemaDeep cfgPlain false argsDeep).1 deepBuilt rfl⟩

/-! ## Key namespacing (C7) -/

/-- The GraphQL-oriented build of the three-level family with concrete names
`a`, `b`, `c`. -/
def famGqlIns : List InputField :=
  [.mk "a" (some "a") "a" none false none none (some
    [.mk "b" (some "b") "b" none false none none (some
      [.mk "b__c" (some "c") "c" (some "string") false none none none])])]

def famOut : OutputField :=
  { key := "value", label := "V", type := some "string", choices := none }

/-- **C7 (amended).**  Key shapes of the built trees, on the three-level
family `arg : A`, `A \x7b b: B \x7d`, `B \x7b c: Str \x7d` with arbitrary
field names: a scalar child expanded directly beneath a top-level field is
keyed by the bare child name; a scalar child at parent-path length two is
keyed `\x7bparentFieldName\x7d__\x7bchildName\x7d` — and it is this form
that the single-input-object flattening promotes to a depth-1 child of the
platform-facing sequence.  Key construction is identical in the two build
modes (the GraphQL build only adds the `field` reference); the GraphQL
document instead references such a field through a dot-joined
immediate-parent path (`inputData.b.b__c`). -/
theorem C7_key_namespacing :
    (∀ (an bn cn : String) (mode : Bool),
      getInputFieldsF 20 (schemaFam bn cn) cfgPlain mode [⟨an, .named "A", false⟩] []
        = some (.ok [.mk an (if mode then some an else none) an none false none none (some
            [.mk bn (if mode then some bn else none) bn none false none none (some
              [.mk ((bn ++ "__") ++ cn) (if mode then some cn else none) cn (some "string")
                 false none none none])])])) ∧
    (∀ an bn cn : String,
      getInputFieldsFlattenedF 20 (schemaFam bn cn) cfgPlain [⟨an, .named "A", false⟩]
        = some (.ok [.mk bn none bn none false none none (some
            [.mk ((bn ++ "__") ++ cn) none cn (some "string") false none none none])])) ∧
    getInputFieldsF 20 (schemaFam "b" "c") cfgPlain true [⟨"a", .named "A", false⟩] []
      = some (.ok famGqlIns) ∧
    buildGQL 20 "query" "op" famGqlIns [famOut]
      = some (.ok ("query \x7b\n  op(\n    a: \x7b\n      b: \x7b\n        c: $\x7bquote("
          ++ "inputData.b.b__c"
          ++ " ?? null)\x7d\n      \x7d\n    \x7d\n  ) \x7b\n    value\n  \x7d\n\x7d")) := by
  refine ⟨fun an bn cn mode => ?_, fun an bn cn => ?_, rfl, rfl⟩
  · cases mode <;> rfl
  · rfl

/-! ## Sorting (C5) -/

lemma charEqOfToNat (a b : Char) (h : a.toNat = b.toNat) : a = b :=
  Char.ext (UInt32.ext h)

lemma charsLt_trans : ∀ (a b c : List Char),
    charsLt a b = true → charsLt b c = true → charsLt a c = true := by
  intro a
  induction a with
  | nil =>
    intro b c hab hbc
    cases b with
    | nil => simp [charsLt] at hab
    | cons y ys =>
      cases c with
      | nil => simp [charsLt] at hbc
      | cons z zs => rfl
  | cons x xs ih =>
    intro b c hab hbc
    cases b with
    | nil => simp [charsLt] at hab
    | cons y ys =>
      cases c with
      | nil => simp [charsLt] at hbc
      | cons z zs =>
        simp only [charsLt] at hab hbc ⊢
        by_cases h1 : x.toNat < y.toNat
        · by_cases h2 : y.toNat < z.toNat
          · rw [if_pos (by omega : x.toNat < z.toNat)]
          · by_cases h3 : z.toNat < y.toNat
            · rw [if_neg h2, if_pos h3] at hbc
              simp at hbc
            · rw [if_pos (by omega : x.toNat < z.toNat)]
        · rw [if_neg h1] at hab
          by_cases h1b : y.toNat < x.toNat
          · rw [if_pos h1b] at hab
            simp at hab
          · rw [if_neg h1b] at hab
            by_cases h2 : y.toNat < z.toNat
            · rw [if_pos (by omega : x.toNat < z.toNat)]
            · by_cases h3 : z.toNat < y.toNat
              · rw [if_neg h2, if_pos h3] at hbc
                simp at hbc
              · rw [if_neg h2, if_neg h3] at hbc
                rw [if_neg (by omega : ¬ x.toNat < z.toNat),
                  if_neg (by omega : ¬ z.toNat < x.toNat)]
                exact ih ys zs hab hbc

lemma charsLt_total_of_ne : ∀ (a b : List Char), a ≠ b →
    charsLt a b = true ∨ charsLt b a = true := by
  intro a
  induction a with
  | nil =>
    intro b hne
    cases b with
    | nil => exact absurd rfl hne
    | cons y ys => exact Or.inl rfl
  | cons x xs ih =>
    intro b hne
    cases b with
    | nil => exact Or.inr rfl
    | cons y ys =>
      by_cases h1 : x.toNat < y.toNat
      · left
        simp [charsLt, h1]
      · by_cases h2 : y.toNat < x.toNat
        · right
          simp [charsLt, h2, show ¬ x.toNat < y.toNat from h1]
        · have hxy : x = y := charEqOfToNat x y (by omega)
          subst hxy
          have hne2 : xs ≠ ys := fun h => hne (by rw [h])
          rcases ih ys hne2 with h | h
          · left
            simp [charsLt, Nat.lt_irrefl, h]
          · right
            simp [charsLt, Nat.lt_irrefl, h]

lemma strLt_trans (a b c : String) :
    strLt a b = true → strLt b c = true → strLt a c = true :=
  charsLt_trans a.data b.data c.data

lemma strLt_total_of_ne (a b : String) (h : a ≠ b) :
    strLt a b = true ∨ strLt b a = true :=
  charsLt_total_of_ne a.data b.data (fun hd => h (String.ext hd))

lemma ordInput_trans : Transitive ordInput := by
  intro a b c hab hbc
  rcases hab with h | ⟨hb, hlt⟩
  · exact Or.inl h
  · rcases hbc with h2 | ⟨hc, hlt2⟩
    · exact absurd h2 hb
    · exact Or.inr ⟨hc, strLt_trans _ _ _ hlt hlt2⟩

lemma ordOutput_trans : Transitive ordOutput := by
  intro a b c hab hbc
  rcases hab with h | ⟨hb, hlt⟩
  · exact Or.inl h
  · rcases hbc with h2 | ⟨hc, hlt2⟩
    · exact absurd h2 hb
    · exact Or.inr ⟨hc, strLt_trans _ _ _ hlt hlt2⟩

lemma insertCmp_pairwise {α : Type} {R : α → α → Prop} (htrans : Transitive R)
    (cmp : α → α → Int) (x : α) :
    ∀ l : List α, l.Pairwise R →
      (∀ y ∈ l, (cmp x y < 0 → R x y) ∧ (¬ cmp x y < 0 → R y x)) →
      (insertCmp cmp x l).Pairwise R := by
  intro l
  induction l with
  | nil => intro _ _; simp [insertCmp]
  | cons y ys ih =>
    intro hp hcond
    simp only [insertCmp]
    by_cases h : cmp x y < 0
    · rw [if_pos h]
      refine List.Pairwise.cons (fun z hz => ?_) hp
      rcases List.mem_cons.mp hz with rfl | hz2
      · exact (hcond z (List.mem_cons_self z ys)).1 h
      · exact htrans ((hcond y (List.mem_cons_self y ys)).1 h)
          (List.rel_of_pairwise_cons hp hz2)
    · rw [if_neg h]
      refine List.Pairwise.cons (fun z hz => ?_)
        (ih (List.Pairwise.of_cons hp)
          (fun z hz => hcond z (List.mem_cons_of_mem _ hz)))
      rcases (mem_insertCmp cmp x ys z).mp hz with rfl | hz2
      · exact (hcond y (List.mem_cons_self y ys)).2 h
      · exact List.rel_of_pairwise_cons hp hz2

lemma sortCmp_pairwise {α : Type} {R : α → α → Prop} (htrans : Transitive R)
    (cmp : α → α → Int) :
    ∀ l : List α, l.Nodup →
      (∀ x ∈ l, ∀ y ∈ l, x ≠ y →
        (cmp x y < 0 → R x y) ∧ (¬ cmp x y < 0 → R y x)) →
      (sortCmp cmp l).Pairwise R := by
  intro l
  induction l with
  | nil => intro _ _; simp [sortCmp]
  | cons x xs ih =>
    intro hnd hcond
    show (insertCmp cmp x (sortCmp cmp xs)).Pairwise R
    refine insertCmp_pairwise htrans cmp x (sortCmp cmp xs)
      (ih (List.Nodup.of_cons hnd)
        (fun a ha b hb hne =>
          hcond a (List.mem_cons_of_mem _ ha) b (List.mem_cons_of_mem _ hb) hne)) ?_
    intro y hy
    have hyxs : y ∈ xs := (mem_sortCmp cmp xs y).mp hy
    have hne : x ≠ y := fun he => (List.nodup_cons.mp hnd).1 (he ▸ hyxs)
    exact hcond x (List.mem_cons_self x xs) y (List.mem_cons_of_mem _ hyxs) hne

lemma insertCmp_perm {α : Type} (cmp : α → α → Int) (x : α) :
    ∀ l : List α, (insertCmp cmp x l).Perm (x :: l) := by
  intro l
  induction l with
  | nil => exact List.Perm.refl _
  | cons y ys ih =>
    simp only [insertCmp]
    by_cases h : cmp x y < 0
    · rw [if_pos h]
    · rw [if_neg h]
      exact (ih.cons y).trans (List.Perm.swap x y ys)

lemma sortCmp_perm {α : Type} (cmp : α → α → Int) :
    ∀ l : List α, (sortCmp cmp l).Perm l := by
  intro l
  induction l with
  | nil => exact List.Perm.refl _
  | cons x xs ih =>
    exact (insertCmp_perm cmp x (sortCmp cmp xs)).trans (ih.cons x)

lemma cmpInput_cond (x y : InputField) (hne : termOf x.key ≠ termOf y.key)
    (hx : termOf x.key ≠ "") (hy : termOf y.key ≠ "") :
    (cmpInput x y < 0 → ordInput x y) ∧ (¬ cmpInput x y < 0 → ordInput y x) := by
  unfold cmpInput ordInput
  rw [if_neg (by tauto : ¬(termOf x.key = "" ∨ termOf y.key = ""))]
  by_cases h1 : termOf x.key = "id"
  · rw [if_pos h1]
    exact ⟨fun _ => Or.inl h1, fun h => absurd (by norm_num : (-1 : Int) < 0) h⟩
  · rw [if_neg h1]
    by_cases h2 : termOf y.key = "id"
    · rw [if_pos h2]
      exact ⟨fun h => absurd h (by norm_num), fun _ => Or.inl h2⟩
    · rw [if_neg h2]
      by_cases h3 : strLt (termOf x.key) (termOf y.key) = true
      · rw [if_pos h3]
        exact ⟨fun _ => Or.inr ⟨h2, h3⟩, fun h => absurd (by norm_num : (-1 : Int) < 0) h⟩
      · rw [if_neg h3]
        have h4 : strLt (termOf y.key) (termOf x.key) = true := by
          rcases strLt_total_of_ne _ _ hne with h | h
          · exact absurd h h3
          · exact h
        exact ⟨fun h => absurd h (by norm_num), fun _ => Or.inr ⟨h1, h4⟩⟩

lemma cmpOutput_cond (x y : OutputField) (hne : x.key ≠ y.key) :
    (cmpOutput x y < 0 → ordOutput x y) ∧ (¬ cmpOutput x y < 0 → ordOutput y x) := by
  unfold cmpOutput ordOutput
  by_cases h1 : x.key = "id"
  · rw [if_pos h1]
    exact ⟨fun _ => Or.inl h1, fun h => absurd (by norm_num : (-1 : Int) < 0) h⟩
  · rw [if_neg h1]
    by_cases h2 : y.key = "id"
    · rw [if_pos h2]
      exact ⟨fun h => absurd h (by norm_num), fun _ => Or.inl h2⟩
    · rw [if_neg h2]
      by_cases h3 : strLt x.key y.key = true
      · rw [if_pos h3]
        exact ⟨fun _ => Or.inr ⟨h2, h3⟩, fun h => absurd (by norm_num : (-1 : Int) < 0) h⟩
      · rw [if_neg h3]
        have h4 : strLt y.key x.key = true := by
          rcases strLt_total_of_ne _ _ hne with h | h
          · exact absurd h h3
          · exact h
        exact ⟨fun h => absurd h (by norm_num), fun _ => Or.inr ⟨h1, h4⟩⟩

/-- **C5 (amended).**  The field sorters are a no-op when `sortFields` is
disabled.  When enabled, provided at most one sibling can claim the `id`
slot — i.e. the terminal key segments are pairwise distinct (and non-empty,
for the input sorter) — the sorted sequence is a permutation of the input
ordered `id` first and the rest by ascending terminal key segment; the
output sorter orders by whole key (which for builder-produced output keys is
the terminal segment, since those keys are bare field names).  With
duplicate `id`-terminal siblings the claim fails (see the counterexample). -/
theorem C5_sorters (cfg : Config) :
    (cfg.sortFields = false →
      (∀ l : List InputField, sortInputFields cfg l = l) ∧
      (∀ l : List OutputField, sortOutputFields cfg l = l)) ∧
    (cfg.sortFields = true →
      (∀ l : List InputField,
        (l.map fun f => termOf f.key).Nodup →
        (∀ f ∈ l, termOf f.key ≠ "") →
        (sortInputFields cfg l).Perm l ∧ (sortInputFields cfg l).Pairwise ordInput) ∧
      (∀ l : List OutputField,
        (l.map fun f => f.key).Nodup →
        (sortOutputFields cfg l).Perm l ∧ (sortOutputFields cfg l).Pairwise ordOutput)) := by
  constructor
  · intro hs
    exact ⟨fun l => by simp [sortInputFields, hs], fun l => by simp [sortOutputFields, hs]⟩
  · intro hs
    constructor
    · intro l hnd hne
      have hnodup : l.Nodup := List.Nodup.of_map _ hnd
      rw [sortInputFields, if_pos hs]
      refine ⟨sortCmp_perm cmpInput l, sortCmp_pairwise ordInput_trans cmpInput l hnodup ?_⟩
      intro x hxm y hym hxy
      have htne : termOf x.key ≠ termOf y.key := by
        intro he
        exact hxy (List.inj_on_of_nodup_map hnd hxm hym he)
      exact cmpInput_cond x y htne (hne x hxm) (hne y hym)
    · intro l hnd
      have hnodup : l.Nodup := List.Nodup.of_map _ hnd
      rw [sortOutputFields, if_pos hs]
      refine ⟨sortCmp_perm cmpOutput l, sortCmp_pairwise ordOutput_trans cmpOutput l hnodup ?_⟩
      intro x hxm y hym hxy
      have htne : x.key ≠ y.key := by
        intro he
        exact hxy (List.inj_on_of_nodup_map hnd hxm hym he)
      exact cmpOutput_cond x y htne

/-- Witness for `C5_sorters`: disabled sorting is the identity on a concrete
pair; enabled sorting on `[b, id]` (distinct non-empty terminals) yields an
`id`-first ascending permutation. -/
theorem C5_sorters_witness :
    sortInputFields cfgPlain [mkIF "b", mkIF "id"] = [mkIF "b", mkIF "id"] ∧
    ((sortInputFields cfgSorted [mkIF "b", mkIF "id"]).Perm [mkIF "b", mkIF "id"] ∧
      (sortInputFields cfgSorted [mkIF "b", mkIF "id"]).Pairwise ordInput) ∧
    ((sortOutputFields cfgSorted [⟨"b", "B", some "string", none⟩,
        ⟨"id", "Id", some "string", none⟩]).Perm
        [⟨"b", "B", some "string", none⟩, ⟨"id", "Id", some "string", none⟩] ∧
      (sortOutputFields cfgSorted [⟨"b", "B", some "string", none⟩,
        ⟨"id", "Id", some "string", none⟩]).Pairwise ordOutput) :=
  ⟨((C5_sorters cfgPlain).1 rfl).1 [mkIF "b", mkIF "id"],
   ((C5_sorters cfgSorted).2 rfl).1 [mkIF "b", mkIF "id"] (by decide)
     (by intro f hf; fin_cases hf <;> decide),
   ((C5_sorters cfgSorted).2 rfl).2 [⟨"b", "B", some "string", none⟩,
     ⟨"id", "Id", some "string", none⟩] (by decide)⟩

/-! ## Sample-value precedence (C3) -/

/-- Spec-side: the value of the last configuration entry whose key matches,
in declaration order. -/
def lastConfigMatch (entries : List (String × SVal)) (matchesKey : String → Bool) :
    Option SVal :=
  match (entries.filter fun kv => matchesKey kv.1).getLast? with
  | some kv => some kv.2
  | none => none

/-- The accumulator scan the source performs over a configured map equals
"last matching entry, else the initial value". -/
lemma foldl_config_lastMatch (p : String → Bool) :
    ∀ (entries : List (String × SVal)) (init : Option SVal),
      entries.foldl (fun acc kv => if p kv.1 then some kv.2 else acc) init
        = match (entries.filter fun kv => p kv.1).getLast? with
          | some kv => some kv.2
          | none => init := by
  intro entries
  induction entries with
  | nil => intro init; rfl
  | cons kv rest ih =>
    intro init
    by_cases hp : p kv.1
    · rw [List.foldl_cons, if_pos hp, List.filter_cons_of_pos (by simpa using hp), ih]
      rw [List.getLast?_cons]
      cases hfr : (rest.filter fun kv => p kv.1).getLast? with
      | some kv2 => rfl
      | none => rfl
    · rw [List.foldl_cons, if_neg hp, List.filter_cons_of_neg (by simpa using hp), ih]

/-- The configured-value lookup, characterized: `null` for fields with
children; otherwise the truthy exact-key entry if any, else the last
matching `endingWith` entry, else the last matching `startingWith` entry. -/
lemma getConfiguredValue_spec (cfg : Config) (f : InputField)
    (hch : f.children = none) :
    getConfiguredValue cfg f
      = match (match List.lookup f.key cfg.sampleFieldValues.exact with
               | some v => if v.truthy then some v else none
               | none => none) with
        | some v => some v
        | none =>
          match lastConfigMatch cfg.sampleFieldValues.endingWith
              (fun k => jsEndsWith (jsToLower f.key) k) with
          | some v => some v
          | none =>
            lastConfigMatch cfg.sampleFieldValues.startingWith
              (fun k => jsStartsWith (jsToLower f.key) k) := by
  unfold getConfiguredValue
  rw [show f.children.isSome = false from by rw [hch]; rfl]
  simp only [Bool.false_eq_true, if_false]
  cases hex : List.lookup f.key cfg.sampleFieldValues.exact with
  | some v =>
    by_cases hv : v.truthy
    · simp [hv]
    · simp only [hv, Bool.false_eq_true, if_false, foldl_config_lastMatch]
      unfold lastConfigMatch
      cases (cfg.sampleFieldValues.endingWith.filter
          fun kv => jsEndsWith (jsToLower f.key) kv.1).getLast? with
      | some kv => rfl
      | none =>
        cases (cfg.sampleFieldValues.startingWith.filter
            fun kv => jsStartsWith (jsToLower f.key) kv.1).getLast? <;> rfl
  | none =>
    simp only [foldl_config_lastMatch]
    unfold lastConfigMatch
    cases (cfg.sampleFieldValues.endingWith.filter
        fun kv => jsEndsWith (jsToLower f.key) kv.1).getLast? with
    | some kv => rfl
    | none =>
      cases (cfg.sampleFieldValues.startingWith.filter
          fun kv => jsStartsWith (jsToLower f.key) kv.1).getLast? <;> rfl

/-- **C3 (amended).**  For a (childless) field, the sample value is chosen
by: (1) non-empty choices, first choice wins; (2) otherwise a configured
value when one matches — the truthy exact-key entry, else the **last**
matching `endingWith` entry in configuration order, else the **last**
matching `startingWith` entry (a suffix match overrides every prefix match,
and later entries override earlier ones); (3) otherwise the type-based
default — string to "Something" (or "1" when the key is exactly `id`),
number to 1.0, integer to 1, boolean to true, datetime to the
CURRENT_TIMESTAMP sentinel — and a scalar type outside this table raises the
fatal UnsupportedSampleType error. -/
theorem C3_sample_precedence (n : Nat) (now : String) (cfg : Config)
    (f : InputField) (hch : f.children = none) :
    (∀ c cs, f.choices = some (c :: cs) →
      createSamplesF now cfg (n + 2) [f] [] = some (.ok [(f.key, .str c)])) ∧
    ((f.choices = none ∨ f.choices = some []) →
      (∀ v, getConfiguredValue cfg f = some v →
        createSamplesF now cfg (n + 2) [f] [] = some (.ok [(f.key, v)])) ∧
      (getConfiguredValue cfg f = none →
        createSamplesF now cfg (n + 2) [f] []
          = match defaultSampleP4 f with
            | .ok v => some (.ok [(f.key, v)])
            | .error e => some (.error e))) ∧
    (getConfiguredValue cfg f
      = match (match List.lookup f.key cfg.sampleFieldValues.exact with
               | some v => if v.truthy then some v else none
               | none => none) with
        | some v => some v
        | none =>
          match lastConfigMatch cfg.sampleFieldValues.endingWith
              (fun k => jsEndsWith (jsToLower f.key) k) with
          | some v => some v
          | none =>
            lastConfigMatch cfg.sampleFieldValues.startingWith
              (fun k => jsStartsWith (jsToLower f.key) k)) ∧
    (f.type = some "string" →
      defaultSampleP4 f = .ok (.str (if f.key = "id" then "1" else "Something"))) ∧
    (f.type = some "number" → defaultSampleP4 f = .ok (.num 1)) ∧
    (f.type = some "integer" → defaultSampleP4 f = .ok (.int 1)) ∧
    (f.type = some "boolean" → defaultSampleP4 f = .ok (.bool true)) ∧
    (f.type = some "datetime" → defaultSampleP4 f = .ok (.str "CURRENT_TIMESTAMP")) ∧
    (∀ t, f.type = some t →
      t ∉ ["string", "number", "integer", "boolean", "datetime"] →
      defaultSampleP4 f = .error (.unsupportedSample f.key)) := by
  refine ⟨?_, ?_, getConfiguredValue_spec cfg f hch, ?_, ?_, ?_, ?_, ?_, ?_⟩
  · intro c cs hcs
    simp [createSamplesF, sampleTruthyAt, hcs, jsSet]
  · intro hcs
    constructor
    · intro v hv
      rcases hcs with h | h <;>
        simp [createSamplesF, sampleTruthyAt, h, hv, jsSet]
    · intro hv
      rcases hcs with h | h <;>
      · simp only [createSamplesF, sampleTruthyAt, List.lookup, h, hv, hch, jsSet]
        cases hd : defaultSampleP4 f <;> simp [createSamplesF, jsSet]
  · intro ht
    simp [defaultSampleP4, ht]
  · intro ht
    simp [defaultSampleP4, ht]
  · intro ht
    simp [defaultSampleP4, ht]
  · intro ht
    simp [defaultSampleP4, ht]
  · intro ht
    simp [defaultSampleP4, ht]
  · intro t ht hmem
    simp only [List.mem_cons, List.mem_singleton, not_or] at hmem
    obtain ⟨h1, h2, h3, h4, h5⟩ := hmem
    simp [defaultSampleP4, ht, h1, h2, h3, h4, h5]

/-- Witness for `C3_sample_precedence`: the configured-value branch on the
`abc` field (suffix entry `Z` wins) and the id-string default branch. -/
theorem C3_sample_precedence_witness :
    createSamplesF "T" cfgSamples 5 [fieldAbc] [] = some (.ok [("abc", .str "Z")]) ∧
    createSamplesF "T" cfgPlain 5 [mkIF "id"] [] = some (.ok [("id", .str "1")]) := by
  constructor
  · exact ((C3_sample_precedence 3 "T" cfgSamples fieldAbc rfl).2.1 (Or.inl rfl)).1
      (.str "Z") (by rfl)
  · have h2 := ((C3_sample_precedence 3 "T" cfgPlain (mkIF "id") rfl).2.1 (Or.inl rfl)).2
      (by rfl)
    exact h2

/-- Witness for `C2_resolver_termination` at the cyclic schema: the lib
variant diverges at fuel 50; the capped variant succeeds at its bound; the
result at the bound is stable at higher fuel. -/
theorem C2_resolver_termination_witness :
    libF schemaCyclic cfgPlain 50 (.res (.named "Node") none 0) = none ∧
    (p4F schemaCyclic cfgPlain (p4Bound schemaCyclic) (.res (.named "Node") none 0)).isSome
      = true ∧
    p4F schemaCyclic cfgPlain 9 (.res (.named "Node") none 0)
      = p4F schemaCyclic cfgPlain 7 (.res (.named "Node") none 0) :=
  ⟨C2_resolver_termination.1 cfgPlain 50 none,
   C2_resolver_termination.2.2 schemaCyclic cfgPlain (.named "Node") none,
   C2_resolver_termination.2.1 schemaCyclic cfgPlain 7 9
     (.res (.named "Node") none 0) (by omega) (by rfl)⟩

end ZG
